import Mathlib

/-!
Verification of the StockSense indicator / forecast engine.

Shallow embedding of `src/prediction.py` (functions
`calculate_technical_indicators`, `create_features`, `predict_stock_trend`)
together with the library calls they make (`pandas` column operations,
`sklearn.model_selection.train_test_split`, `numpy` reductions).

Modelling conventions:

* A float cell is a value of type `V`: an exact rational (`V.num`), one of the
  two IEEE infinities (`V.inf`, `V.ninf`), or `V.nan`.  Floating-point
  round-off is idealised away (floats are modelled as exact rationals); the
  special-value propagation rules of numpy/pandas (NaN propagation, signed
  division by zero, NaN-comparisons being false, `skipna` maxima) are modelled
  exactly, because the claims under verification are about those rules.
* `Real.sqrt` is irrational on most rationals, so inside the executable `V`
  pipeline the floating `sqrt` (used only for the Bollinger `MA20_std` column
  and the confidence-band columns, whose numeric content no verified claim
  depends on) is stood in for by the exact rational `Rat.sqrt`; it agrees with
  floating sqrt on `nan` and on perfect squares.  The confidence-band claim,
  which genuinely is about real square roots, is verified separately over `ℝ`
  (`bandHalfWidth` below).
* The prediction model (`sklearn.ensemble.RandomForestRegressor`) is opaque to
  every claim, so `predict_stock_trend` is parametrised by an arbitrary
  `fitModel` function; claims are proved for every such model.
* A `pandas.DataFrame` is a date index (`ℤ` day ordinals) plus an ordered
  association list of named columns; rows of the feature matrix `X` are
  association lists from column name to value.
* Python exceptions are `Except`.  `PredError.insufficientDataError` names the
  `InsufficientDataError` that the specification postulates; the source never
  defines or raises any such exception, which is exactly what several claims
  are about.  `PredError.valueError` models the `ValueError` that
  `sklearn.model_selection.train_test_split` raises on degenerate splits.
-/

instance {ε α : Type} [DecidableEq ε] [DecidableEq α] : DecidableEq (Except ε α) :=
  fun a b =>
    match a, b with
    | .error e1, .error e2 =>
        if h : e1 = e2 then isTrue (by rw [h])
        else isFalse (fun hh => h (Except.error.inj hh))
    | .ok v1, .ok v2 =>
        if h : v1 = v2 then isTrue (by rw [h])
        else isFalse (fun hh => h (Except.ok.inj hh))
    | .error _, .ok _ => isFalse (fun hh => Except.noConfusion hh)
    | .ok _, .error _ => isFalse (fun hh => Except.noConfusion hh)

/-- A floating-point cell value: exact rational, `±inf`, or `NaN`. -/
inductive V where
  | num (q : ℚ)
  | inf
  | ninf
  | nan
deriving DecidableEq, Repr

namespace V

/-- `NaN`-ness of a cell (pandas `isna`). -/
def isNan : V → Bool
  | nan => true
  | _ => false

/-- IEEE addition on `V`. -/
def vadd : V → V → V
  | nan, _ => nan
  | _, nan => nan
  | num a, num b => num (a + b)
  | num _, inf => inf
  | num _, ninf => ninf
  | inf, num _ => inf
  | ninf, num _ => ninf
  | inf, inf => inf
  | ninf, ninf => ninf
  | inf, ninf => nan
  | ninf, inf => nan

/-- IEEE negation on `V`. -/
def vneg : V → V
  | nan => nan
  | num a => num (-a)
  | inf => ninf
  | ninf => inf

/-- IEEE subtraction on `V`. -/
def vsub (a b : V) : V := vadd a (vneg b)

/-- IEEE multiplication on `V` (`0 * inf = nan`). -/
def vmul : V → V → V
  | nan, _ => nan
  | _, nan => nan
  | num a, num b => num (a * b)
  | num a, inf => if a > 0 then inf else if a < 0 then ninf else nan
  | num a, ninf => if a > 0 then ninf else if a < 0 then inf else nan
  | inf, num b => if b > 0 then inf else if b < 0 then ninf else nan
  | ninf, num b => if b > 0 then ninf else if b < 0 then inf else nan
  | inf, inf => inf
  | ninf, ninf => inf
  | inf, ninf => ninf
  | ninf, inf => ninf

/-- IEEE division on `V` as numpy/pandas perform it elementwise:
division by zero gives a signed infinity, `0/0` gives `nan`. -/
def vdiv : V → V → V
  | nan, _ => nan
  | _, nan => nan
  | num a, num b =>
      if b = 0 then (if a > 0 then inf else if a < 0 then ninf else nan)
      else num (a / b)
  | num _, inf => num 0
  | num _, ninf => num 0
  | inf, num b => if b < 0 then ninf else inf
  | ninf, num b => if b < 0 then inf else ninf
  | inf, inf => nan
  | inf, ninf => nan
  | ninf, inf => nan
  | ninf, ninf => nan

/-- IEEE absolute value on `V` (`np.abs`). -/
def vabs : V → V
  | nan => nan
  | num a => num |a|
  | inf => inf
  | ninf => inf

/-- IEEE strict `<` as a boolean: every comparison with `NaN` is false. -/
def vltB : V → V → Bool
  | nan, _ => false
  | _, nan => false
  | num a, num b => a < b
  | num _, inf => true
  | num _, ninf => false
  | inf, _ => false
  | ninf, ninf => false
  | ninf, _ => true

/-- IEEE equality as a boolean (numpy `==`): `NaN` equals nothing. -/
def vEqB : V → V → Bool
  | num a, num b => a = b
  | inf, inf => true
  | ninf, ninf => true
  | _, _ => false

/-- Total-order maximum used under pandas `skipna` (no `nan` reaches it,
so the `nan` rows are unreachable under the skipna wrapper). -/
def vmaxTot : V → V → V
  | nan, b => b
  | a, nan => a
  | num a, num b => num (max a b)
  | inf, _ => inf
  | _, inf => inf
  | ninf, b => b
  | a, ninf => a

/-- Rowwise maximum as `pandas.DataFrame.max(axis=1)` computes it
(`skipna=True`): `nan` operands are ignored, all-`nan` gives `nan`. -/
def vmaxSkip (a b : V) : V :=
  if a.isNan then b else if b.isNan then a else vmaxTot a b

/-- `np.sign`: `nan` maps to `nan`, infinities to `±1`. -/
def signV : V → V
  | nan => nan
  | inf => num 1
  | ninf => num (-1)
  | num q => num (if q < 0 then -1 else if q = 0 then 0 else 1)

/-- Floating square root (`np.sqrt`) modelled inside `ℚ` by `Rat.sqrt`
(exact on `nan`, on infinities, on negatives and on perfect squares; an
exact-rational stand-in elsewhere — see the header comment). -/
def vsqrt : V → V
  | nan => nan
  | inf => inf
  | ninf => nan
  | num q => if q < 0 then nan else num (Rat.sqrt q)

/-- Python two-argument `min` (left-biased in the presence of `NaN`). -/
def pymin (a b : V) : V := if vltB b a then b else a

/-- Python two-argument `max` (left-biased in the presence of `NaN`). -/
def pymax (a b : V) : V := if vltB a b then b else a

end V

open V

/-- Sum of a list of cells (numpy `sum`, starting from `0.0`). -/
def sumV (l : List V) : V := l.foldl vadd (num 0)

/-- Mean of a list of cells; on the empty list this is `0/0 = nan`,
matching `np.mean([])`. -/
def meanV (l : List V) : V := vdiv (sumV l) (num l.length)

/-- Population standard deviation `np.std` (`ddof = 0`):
`sqrt(mean((x - mean x)^2))`; `nan` on the empty list. -/
def npStd (xs : List V) : V :=
  let m := meanV xs
  vsqrt (vdiv (sumV (xs.map (fun x => vmul (vsub x m) (vsub x m)))) (num xs.length))

/-- Mean of a boolean array (`np.mean` of `actual_direction == pred_direction`):
fraction of `true`s; `nan` (with a numpy warning) on the empty array. -/
def npMeanBool (l : List Bool) : V :=
  if l.length = 0 then nan else num ((l.count true : ℚ) / (l.length : ℚ))

/-! ## Column (Series) operations -/

/-- `Series.shift(k)`: `k` leading `NaN`s, values pushed down, length kept. -/
def shiftCol (k : ℕ) (s : List V) : List V :=
  List.replicate (min k s.length) nan ++ s.take (s.length - k)

/-- `Series.diff()`: elementwise `s - s.shift(1)` (first entry `NaN`). -/
def diffV (s : List V) : List V :=
  List.zipWith vsub s (shiftCol 1 s)

/-- The trailing window of width `w` ending at index `i` (inclusive). -/
def windowAt (w : ℕ) (s : List V) (i : ℕ) : List V :=
  (s.take (i + 1)).drop (i + 1 - w)

/-- `Series.rolling(window=w).agg`: with the default `min_periods = w` the
result at `i` is `NaN` until the window is filled, else `f` of the trailing
`w` values (a `NaN` inside the window propagates through `f` itself). -/
def rollingApply (w : ℕ) (f : List V → V) (s : List V) : List V :=
  (List.range s.length).map (fun i => if i + 1 < w then nan else f (windowAt w s i))

/-- `Series.rolling(window=w).mean()`. -/
def rollingMean (w : ℕ) (s : List V) : List V :=
  rollingApply w meanV s

/-- Sample variance (`ddof = 1`) of a full window. -/
def sampleVar (l : List V) : V :=
  let m := meanV l
  vdiv (sumV (l.map (fun x => vmul (vsub x m) (vsub x m)))) (num (l.length - 1))

/-- `Series.rolling(window=w).std()` (sample standard deviation; the floating
sqrt is the `Rat.sqrt` stand-in `vsqrt`, see header). -/
def rollingStd (w : ℕ) (s : List V) : List V :=
  rollingApply w (fun l => vsqrt (sampleVar l)) s

/-- One step of `Series.ewm(alpha, adjust=False, ignore_na=False).mean()`:
state is (current weighted value if an observation has been seen, old weight).
Mirrors the pandas aggregation loop: every step decays `old_wt` by `1-α`;
an observation updates the weighted value and resets `old_wt` to 1; a `NaN`
leaves the value unchanged (and is emitted as the carried value). -/
def ewmGo (a : ℚ) : Option V × ℚ → List V → List V
  | _, [] => []
  | (none, ow), x :: xs =>
      if x.isNan then nan :: ewmGo a (none, ow) xs
      else x :: ewmGo a (some x, 1) xs
  | (some w, ow), x :: xs =>
      if x.isNan then w :: ewmGo a (some w, ow * (1 - a)) xs
      else
        let owd := ow * (1 - a)
        let w2 := vdiv (vadd (vmul (num owd) w) (vmul (num a) x)) (num (owd + a))
        w2 :: ewmGo a (some w2, 1) xs

/-- `Series.ewm(span=s, adjust=False).mean()` with `α = 2/(s+1)`. -/
def ewmSpan (s : ℚ) (xs : List V) : List V :=
  ewmGo (2 / (s + 1)) (none, 1) xs

/-- `bfill` on one column: every `NaN` takes the next non-`NaN` value below;
trailing `NaN`s (no value below) stay `NaN`. -/
def bfillCol : List V → List V
  | [] => []
  | v :: rest =>
      let rest2 := bfillCol rest
      (if v.isNan then rest2.headD nan else v) :: rest2

/-! ## DataFrames -/

/-- A `pandas.DataFrame`: a date index (day ordinals) and an ordered
association list of named columns. -/
structure DataFrame where
  index : List ℤ
  cols : List (String × List V)
deriving DecidableEq, Repr

/-- Replace the column `k` (first occurrence) or append it — the effect of
`df[k] = v` on the column list. -/
def setColList : List (String × List V) → String → List V → List (String × List V)
  | [], k, v => [(k, v)]
  | (k2, v2) :: rest, k, v =>
      if k2 = k then (k, v) :: rest else (k2, v2) :: setColList rest k v

/-- Column lookup on the column list (first occurrence). -/
def getColList : List (String × List V) → String → List V
  | [], _ => []
  | (k2, v2) :: rest, k => if k2 = k then v2 else getColList rest k

/-- Column presence on the column list. -/
def hasColList : List (String × List V) → String → Bool
  | [], _ => false
  | (k2, _) :: rest, k => if k2 = k then true else hasColList rest k

/-- `df[k] = v`. -/
def DataFrame.setCol (df : DataFrame) (k : String) (v : List V) : DataFrame :=
  ⟨df.index, setColList df.cols k v⟩

/-- `df[k]` (the empty column for a missing key; all uses are on present keys). -/
def DataFrame.getCol (df : DataFrame) (k : String) : List V :=
  getColList df.cols k

/-- `k in df.columns`. -/
def DataFrame.hasCol (df : DataFrame) (k : String) : Bool :=
  hasColList df.cols k

/-- `df.bfill()`: back-fill every column. -/
def DataFrame.bfill (df : DataFrame) : DataFrame :=
  ⟨df.index, df.cols.map (fun p => (p.1, bfillCol p.2))⟩

/-- `df.copy()`: in value semantics a copy is the value itself; the point of
the copy — that mutating the copy leaves the caller's frame unchanged — is
made explicit in the store-passing model `calcIndicatorsCall` below. -/
def DataFrame.copy (df : DataFrame) : DataFrame := df

/-- Does row `i` of the frame contain a `NaN` in any column? -/
def DataFrame.rowHasNan (df : DataFrame) (i : ℕ) : Bool :=
  df.cols.any (fun p => (p.2.getD i nan).isNan)

/-- Restriction of one column to the kept row indices. -/
def dropnaCol (keep : List ℕ) (v : List V) : List V :=
  keep.map (fun i => v.getD i nan)

/-- `df.dropna()`: keep exactly the rows with no `NaN` in any column. -/
def DataFrame.dropna (df : DataFrame) : DataFrame :=
  let keep := (List.range df.index.length).filter (fun i => !df.rowHasNan i)
  ⟨keep.map (fun i => df.index.getD i 0),
   df.cols.map (fun p => (p.1, dropnaCol keep p.2))⟩

/-! ## The indicator engine (`calculate_technical_indicators`, lines 9-56) -/

/-- `delta.where(delta > 0, 0)`: keep where positive, else `0`
(a `NaN` compares false, so it is replaced by `0`). -/
def whereGtZero (s : List V) : List V :=
  s.map (fun d => if vltB (num 0) d then d else num 0)

/-- `delta.where(delta < 0, 0)`. -/
def whereLtZero (s : List V) : List V :=
  s.map (fun d => if vltB d (num 0) then d else num 0)

/-- `gain = delta.where(delta > 0, 0).rolling(window=14).mean()` (line 28). -/
def gainCol (close : List V) : List V :=
  rollingMean 14 (whereGtZero (diffV close))

/-- `loss = -delta.where(delta < 0, 0).rolling(window=14).mean()` (line 29);
the unary minus negates the rolled mean. -/
def lossCol (close : List V) : List V :=
  (rollingMean 14 (whereLtZero (diffV close))).map vneg

/-- `rs = gain / loss` (line 31). -/
def rsCol (close : List V) : List V :=
  List.zipWith vdiv (gainCol close) (lossCol close)

/-- `df_temp['RSI'] = 100 - (100 / (1 + rs))` (line 32). -/
def rsiCol (close : List V) : List V :=
  (rsCol close).map (fun r => vsub (num 100) (vdiv (num 100) (vadd (num 1) r)))

/-- `MACD = Close.ewm(span=12, adjust=False).mean() -
Close.ewm(span=26, adjust=False).mean()` (lines 35-37). -/
def macdCol (close : List V) : List V :=
  List.zipWith vsub (ewmSpan 12 close) (ewmSpan 26 close)

/-- `true_range = pd.concat([high_low, high_close, low_close],
axis=1).max(axis=1)` (lines 46-50): rowwise skip-`NaN` maximum of
`High - Low`, `|High - Close.shift()|` and `|Low - Close.shift()|`. -/
def trueRangeCol (high low close : List V) : List V :=
  List.zipWith vmaxSkip (List.zipWith vsub high low)
    (List.zipWith vmaxSkip
      ((List.zipWith vsub high (shiftCol 1 close)).map vabs)
      ((List.zipWith vsub low (shiftCol 1 close)).map vabs))

/-- The column assignments `df_temp['…'] = …` of lines 23-51, in source
order; each right-hand side reads the current `df_temp`. -/
def indicatorAssignments : List (String × (DataFrame → List V)) :=
  [("MA20", fun t => rollingMean 20 (t.getCol "Close")),
   ("MA50", fun t => rollingMean 50 (t.getCol "Close")),
   ("RSI", fun t => rsiCol (t.getCol "Close")),
   ("MACD", fun t => macdCol (t.getCol "Close")),
   ("Signal_Line", fun t => ewmSpan 9 (t.getCol "MACD")),
   ("MA20_std", fun t => rollingStd 20 (t.getCol "Close")),
   ("Upper_Band", fun t =>
      List.zipWith vadd (t.getCol "MA20")
        ((t.getCol "MA20_std").map (fun s => vmul s (num 2)))),
   ("Lower_Band", fun t =>
      List.zipWith vsub (t.getCol "MA20")
        ((t.getCol "MA20_std").map (fun s => vmul s (num 2)))),
   ("ATR", fun t =>
      rollingMean 14 (trueRangeCol (t.getCol "High") (t.getCol "Low") (t.getCol "Close")))]

/-- Run the assignment block of lines 23-51 on `df_temp`. -/
def applyIndicatorAssignments (t : DataFrame) : DataFrame :=
  indicatorAssignments.foldl (fun acc p => acc.setCol p.1 (p.2 acc)) t

/-- `calculate_technical_indicators` (lines 9-56): copy the input, run the
column assignments, back-fill.  The body contains no `raise` and no failing
pandas operation, so the function is total — in particular it returns a
(silently empty) frame on empty input instead of raising anything. -/
def calculate_technical_indicators (df : DataFrame) : DataFrame :=
  DataFrame.bfill (applyIndicatorAssignments df.copy)

/-- The two frame-valued Python variables in scope in the body of
`calculate_technical_indicators`: the caller's argument `df` and the local
copy `df_temp`. -/
inductive PyVar where
  | df
  | df_temp
deriving DecidableEq, Repr

/-- Store-passing model of a call to `calculate_technical_indicators`: the
store maps the two variables to frames; line 20 binds `df_temp` to a copy of
`df`, every subsequent write (lines 23-51 and the `bfill` rebinding of line
54) targets `df_temp` only.  Returns the final store and the returned frame. -/
def calcIndicatorsCall (st : PyVar → DataFrame) : (PyVar → DataFrame) × DataFrame :=
  let st1 := Function.update st PyVar.df_temp ((st PyVar.df).copy)
  let st2 := indicatorAssignments.foldl
    (fun s p => Function.update s PyVar.df_temp
      ((s PyVar.df_temp).setCol p.1 (p.2 (s PyVar.df_temp)))) st1
  let st3 := Function.update st2 PyVar.df_temp ((st2 PyVar.df_temp).bfill)
  (st3, st3 PyVar.df_temp)

/-! ## Feature construction (`create_features`, lines 58-99) -/

/-- `consistent_lags = [1, 2, 3, 5, 10]` (line 72). -/
def consistent_lags : List ℕ := [1, 2, 3, 5, 10]

/-- The f-string column name `lag_{k}`. -/
def lagName (k : ℕ) : String := "lag_" ++ toString k

/-- The f-string column name `return_{k}`. -/
def returnName (k : ℕ) : String := "return_" ++ toString k

/-- `feature_columns` (lines 81-90): the 13 base columns followed by the
interleaved lag/return names. -/
def feature_columns : List String :=
  ["Open", "High", "Low", "Close", "Volume",
   "MA20", "MA50", "RSI", "MACD", "Signal_Line",
   "Upper_Band", "Lower_Band", "ATR"] ++
  (consistent_lags.map (fun l => [lagName l, returnName l])).flatten

/-- A row of the feature matrix `X` (and the single reused forecasting row
`last_row`): an association list from feature-column name to value. -/
def Row : Type := List (String × V)

instance : DecidableEq Row := by
  unfold Row
  infer_instance

/-- Value lookup on a row (first occurrence; `nan` for a missing key — all
uses are on complete rows). -/
def getValList : List (String × V) → String → V
  | [], _ => nan
  | (k2, v2) :: rest, k => if k2 = k then v2 else getValList rest k

/-- `row[k]`. -/
def Row.getVal (r : Row) (k : String) : V :=
  getValList r k

/-- `row[k] = v`. -/
def Row.setVal : Row → String → V → Row
  | [], k, v => [(k, v)]
  | (k2, v2) :: rest, k, v =>
      if k2 = k then (k, v) :: rest else (k2, v2) :: Row.setVal rest k v

/-- Lines 69-78 of `create_features`: the copied frame with the five lag
columns (`Close` shifted by 1, 2, 3, 5, 10) and the five return columns
(`Close / lag_k - 1`) appended, before `dropna`. -/
def featuresFrame (df : DataFrame) : DataFrame :=
  let dff := consistent_lags.foldl
    (fun f l => f.setCol (lagName l) (shiftCol l (f.getCol "Close"))) df.copy
  consistent_lags.foldl
    (fun f l => f.setCol (returnName l)
      (List.zipWith (fun c lg => vsub (vdiv c lg) (num 1))
        (f.getCol "Close") (f.getCol (lagName l)))) dff

/-- `create_features` (lines 58-99): add the lag columns, add the return
columns (`featuresFrame`), drop the rows with any `NaN`, and select
`feature_columns` as the matrix `X` (rows keyed by column name) with target
`y = Close`. -/
def create_features (df : DataFrame) : List Row × List V :=
  let dff := (featuresFrame df).dropna
  let X := (List.range dff.index.length).map
    (fun i => feature_columns.map (fun k => (k, (dff.getCol k).getD i nan)))
  let y := dff.getCol "Close"
  (X, y)

/-! ## The forecast engine (`predict_stock_trend`, lines 101-192) -/

/-- The exceptions relevant to the engine.  `insufficientDataError` is the
`InsufficientDataError` the specification postulates; the source defines no
such exception and never raises it.  `valueError` models the `ValueError`
raised by `sklearn.model_selection.train_test_split` on degenerate inputs. -/
inductive PredError where
  | insufficientDataError
  | valueError
deriving DecidableEq, Repr

/-- `sklearn.model_selection.train_test_split(X, y, test_size=0.2,
shuffle=False)`: with `shuffle=False` the test set is the last
`ceil(0.2 * n)` rows and the train set the first `n - ceil(0.2 * n)` rows,
in order; it raises `ValueError` when the lengths disagree or either part
would be empty. -/
def train_test_split (X : List Row) (y : List V) :
    Except PredError (List Row × List Row × List V × List V) :=
  let n := X.length
  let n_test := (n + 4) / 5
  let n_train := n - n_test
  if X.length ≠ y.length then .error .valueError
  else if n_test = 0 then .error .valueError
  else if n_train = 0 then .error .valueError
  else .ok (X.take n_train, X.drop n_train, y.take n_train, y.drop n_train)

/-- `sklearn.metrics.r2_score` on the test split: `1 - SS_res/SS_tot`, with
the documented degenerate rule for a constant target (`SS_tot = 0`). -/
def r2_score (y_true y_pred : List V) : V :=
  let ssRes := sumV (List.zipWith (fun a b => vmul (vsub a b) (vsub a b)) y_true y_pred)
  let m := meanV y_true
  let ssTot := sumV (y_true.map (fun a => vmul (vsub a m) (vsub a m)))
  if ssTot = num 0 then (if ssRes = num 0 then num 1 else num 0)
  else vsub (num 1) (vdiv ssRes ssTot)

/-- Lines 135-139: directional accuracy.  `np.sign` of the consecutive
day-over-day changes of actual and predicted test values, compared with
numpy `==` (false on any `NaN`), averaged and scaled by 100.  On a test
split with fewer than 2 rows the comparison array is empty and `np.mean`
returns `nan` — not `0`. -/
def directionAccuracy (y_test y_pred : List V) : V :=
  let actual_direction := (List.zipWith vsub y_test.tail y_test).map signV
  let pred_direction := (List.zipWith vsub y_pred.tail y_pred).map signV
  vmul (npMeanBool (List.zipWith vEqB actual_direction pred_direction)) (num 100)

/-- One iteration of the autoregressive loop (lines 159-180): predict from
the current row, shift the lag features downwards in descending order,
write the prediction into `lag_1` and `Close`, and recompute each
`return_k` from the new prediction and the updated `lag_k` unless that lag
is zero (a `NaN` lag is `!= 0` in numpy, so it is recomputed). -/
def stepRow (model : Row → V) (r : Row) : V × Row :=
  let next_pred := model r
  -- for j in range(len(consistent_lags)-1, 0, -1): shift lag features
  let r := r.setVal (lagName 10) (r.getVal (lagName 5))
  let r := r.setVal (lagName 5) (r.getVal (lagName 3))
  let r := r.setVal (lagName 3) (r.getVal (lagName 2))
  let r := r.setVal (lagName 2) (r.getVal (lagName 1))
  -- last_row['lag_1'] = next_pred
  let r := r.setVal (lagName 1) next_pred
  -- last_row['Close'] = next_pred
  let r := r.setVal "Close" next_pred
  -- recalculate returns for our consistent lags
  let r := consistent_lags.foldl
    (fun r l =>
      if vEqB (r.getVal (lagName l)) (num 0) then r
      else r.setVal (returnName l) (vsub (vdiv next_pred (r.getVal (lagName l))) (num 1))) r
  (next_pred, r)

/-- The whole loop of line 159: `prediction_days` iterations of `stepRow`
starting from the last trainable feature row, collecting the predictions. -/
def forecastLoop (model : Row → V) : ℕ → Row → List V × Row
  | 0, r => ([], r)
  | n + 1, r =>
      let pr := stepRow model r
      let rest := forecastLoop model n pr.2
      (pr.1 :: rest.1, rest.2)

/-- The first statement of `predict_stock_trend` (lines 116-117), split out
so the theorems can name the frame that feature construction receives. -/
def indicatorStage (df : DataFrame) : DataFrame :=
  -- calculate technical indicators if not already present (lines 116-117)
  if df.hasCol "RSI" then df else calculate_technical_indicators df

/-- `predict_stock_trend` (lines 101-192), parametrised by the opaque
regression model (`fitModel X_train y_train` stands for
`RandomForestRegressor(n_estimators=100, random_state=42).fit(...)`; every
claim below is proved for an arbitrary model).  The unused `mse`/`mae`
metrics of lines 131-132 are pure computations with no effect and are
omitted.  Forecast dates are `ℤ` day ordinals:
`pd.date_range(start=last_date + 1 day, periods=prediction_days)` is the
`prediction_days` consecutive calendar days after the last index entry. -/
def predict_stock_trend (fitModel : List Row → List V → Row → V)
    (df : DataFrame) (prediction_days : ℕ) :
    Except PredError (DataFrame × V × V) :=
  let df := indicatorStage df
  let XY := create_features df
  match train_test_split XY.1 XY.2 with
  | .error e => .error e
  | .ok (X_train, X_test, y_train, y_test) =>
      let model := fitModel X_train y_train
      let y_pred := X_test.map model
      let r2 := r2_score y_test y_pred
      let direction_accuracy := directionAccuracy y_test y_pred
      -- confidence = max(0.0, min(100.0, r2 * 100.0)) (line 143)
      let confidence := pymax (num 0) (pymin (num 100) (vmul r2 (num 100)))
      -- future dates (lines 146-147)
      let last_date := df.index.getLastD 0
      let future_dates := (List.range prediction_days).map
        (fun (i : ℕ) => last_date + 1 + (i : ℤ))
      -- autoregressive forecast (lines 153-180)
      let last_row := XY.1.getLastD []
      let predictions := (forecastLoop model prediction_days last_row).1
      -- confidence interval (lines 185-190)
      let std_dev := npStd (List.zipWith vsub y_test y_pred)
      let half := (List.range prediction_days).map
        (fun (i : ℕ) => vmul (vmul (num (49 / 25)) std_dev)
          (vsqrt (vdiv (num ((i : ℚ) + 1)) (num 10))))
      let upper := List.zipWith vadd predictions half
      let lower := List.zipWith vsub predictions half
      .ok (⟨future_dates,
            [("Predicted", predictions),
             ("Upper_Bound", upper),
             ("Lower_Bound", lower)]⟩,
           direction_accuracy, confidence)


/-! ## The confidence band over `ℝ` (lines 185-190)

The band construction
`pred_df['Upper_Bound'] = Predicted + 1.96 * std_dev * sqrt(arange(1, n+1)/10)`
is about real square roots, so it is modelled over `ℝ` (floats idealised as
reals; the `V`-level pipeline above carries the same columns through the
rational `sqrt` stand-in, which no claim inspects numerically). -/

/-- `std_dev = np.std(y_test - y_pred)` (line 186) over `ℝ`: population
standard deviation of the test residuals. -/
noncomputable def residualStd (resid : List ℝ) : ℝ :=
  Real.sqrt ((resid.map (fun x => (x - resid.sum / resid.length) ^ 2)).sum / resid.length)

/-- Band half-width at 1-indexed step `i`:
`1.96 * std_dev * sqrt(i / 10)` (lines 187-190). -/
noncomputable def bandHalfWidth (resid : List ℝ) (i : ℕ) : ℝ :=
  1.96 * residualStd resid * Real.sqrt ((i : ℝ) / 10)

/-- `Upper_Bound = Predicted + half-width` at step `i` (line 189). -/
noncomputable def forecastUpperBound (predicted : ℕ → ℝ) (resid : List ℝ) (i : ℕ) : ℝ :=
  predicted i + bandHalfWidth resid i

/-- `Lower_Bound = Predicted - half-width` at step `i` (line 190). -/
noncomputable def forecastLowerBound (predicted : ℕ → ℝ) (resid : List ℝ) (i : ℕ) : ℝ :=
  predicted i - bandHalfWidth resid i

/-! ## Auxiliary definitions used by the claims -/

/-- The 12 feature columns the claim says stay frozen during the
autoregressive walk: the raw `Open`/`High`/`Low`/`Volume` and all indicator
features. -/
def frozenFeatureCols : List String :=
  ["Open", "High", "Low", "Volume", "MA20", "MA50", "RSI", "MACD",
   "Signal_Line", "Upper_Band", "Lower_Band", "ATR"]

/-- The number of trainable rows left after lag-feature construction (the
rows of `X` inside `predict_stock_trend`). -/
def nTrainable (df : DataFrame) : ℕ :=
  (create_features (indicatorStage df)).1.length

/-- The specification's reading of direction accuracy: the number of the
`testSize − 1` consecutive test positions at which the sign of the
predicted day-over-day change agrees with the sign of the actual
day-over-day change.  (Second, spec-side definition, kept for comparison
with the code's `directionAccuracy`.) -/
def specDirectionAgreements (y_test y_pred : List V) : ℕ :=
  ((List.range (y_test.length - 1)).filter
    (fun i => vEqB (signV (vsub (y_test.getD (i + 1) nan) (y_test.getD i nan)))
                   (signV (vsub (y_pred.getD (i + 1) nan) (y_pred.getD i nan))))).length

/-- The elementwise RSI formula `100 - 100/(1+rs)` of line 32. -/
def rsiOfRs (r : V) : V :=
  vsub (num 100) (vdiv (num 100) (vadd (num 1) r))

/-- Every cell of the column is `NaN`. -/
def allNanL (l : List V) : Prop := ∀ v ∈ l, v.isNan = true

/-- The nine derived indicator columns the engine attaches. -/
def indicator_columns : List String :=
  ["MA20", "MA50", "RSI", "MACD", "Signal_Line", "MA20_std",
   "Upper_Band", "Lower_Band", "ATR"]

instance (l : List V) : Decidable (allNanL l) := by
  unfold allNanL
  infer_instance

/-! ## Concrete test fixtures

Small concrete inputs on which the counterexamples and witnesses below
evaluate the embedded functions. -/

/-- Day-ordinal index `0, 1, …, n-1`. -/
def rampIdx (n : ℕ) : List ℤ := (List.range n).map (fun (i : ℕ) => (i : ℤ))

/-- A strictly increasing close column `1, 2, …, n`. -/
def rampClose (n : ℕ) : List V := (List.range n).map (fun (i : ℕ) => num ((i : ℚ) + 1))

/-- A fully defined `n`-row frame that already carries all 13 base feature
columns (`RSI` present, so `predict_stock_trend` skips the indicator
stage); `Close` is the increasing ramp. -/
def fullFrame (n : ℕ) : DataFrame :=
  ⟨rampIdx n,
   [("Open", rampClose n),
    ("High", List.replicate n (num 2)),
    ("Low", List.replicate n (num 1)),
    ("Close", rampClose n),
    ("Volume", List.replicate n (num 1000)),
    ("MA20", List.replicate n (num 1)),
    ("MA50", List.replicate n (num 1)),
    ("RSI", List.replicate n (num 50)),
    ("MACD", List.replicate n (num 0)),
    ("Signal_Line", List.replicate n (num 0)),
    ("Upper_Band", List.replicate n (num 3)),
    ("Lower_Band", List.replicate n (num 0)),
    ("ATR", List.replicate n (num 1))]⟩

/-- A constant prediction model standing in for the fitted random forest. -/
def fit0 : List Row → List V → Row → V := fun _ _ _ => num 1

/-- 20 raw OHLCV rows with constant `Close = 100`: the `0/0` RSI case. -/
def dfConst20 : DataFrame :=
  ⟨rampIdx 20,
   [("Open", List.replicate 20 (num 100)),
    ("High", List.replicate 20 (num 100)),
    ("Low", List.replicate 20 (num 100)),
    ("Close", List.replicate 20 (num 100)),
    ("Volume", List.replicate 20 (num 1000))]⟩

/-- 15 raw OHLCV rows with strictly increasing `Close`: all-gain RSI. -/
def dfRamp15 : DataFrame :=
  ⟨rampIdx 15,
   [("Open", rampClose 15),
    ("High", rampClose 15),
    ("Low", rampClose 15),
    ("Close", rampClose 15),
    ("Volume", List.replicate 15 (num 1000))]⟩

/-- Five one-column feature rows, for exercising the chronological split. -/
def X5 : List Row :=
  [[("Close", num 1)], [("Close", num 2)], [("Close", num 3)],
   [("Close", num 4)], [("Close", num 5)]]

/-- The matching five targets. -/
def y5 : List V := [num 1, num 2, num 3, num 4, num 5]

/-- A complete feature row with every feature equal to 3. -/
def rowFix : Row := feature_columns.map (fun k => (k, num 3))

/-- Two rows of entirely undefined OHLCV data (the fetch-failure shape of
`get_stock_data`, `src/stock_data.py` lines 69-82). -/
def dfAllNan : DataFrame :=
  ⟨[0, 1],
   [("Open", [nan, nan]), ("High", [nan, nan]), ("Low", [nan, nan]),
    ("Close", [nan, nan]), ("Volume", [nan, nan])]⟩

/-! # Lemmas -/

theorem length_bfillCol (s : List V) : (bfillCol s).length = s.length := by
  induction s with
  | nil => rfl
  | cons v rest ih => simp [bfillCol, ih]

theorem getColList_setColList (l : List (String × List V)) (k : String)
    (v : List V) (k' : String) :
    getColList (setColList l k v) k' = if k' = k then v else getColList l k' := by
  induction l with
  | nil =>
      rcases eq_or_ne k' k with h | h
      · subst h; simp [setColList, getColList]
      · simp [setColList, getColList, h, Ne.symm h]
  | cons p rest ih =>
      obtain ⟨k2, v2⟩ := p
      rcases eq_or_ne k2 k with hp | hp
      · subst hp
        rcases eq_or_ne k' k2 with h | h
        · subst h; simp [setColList, getColList]
        · simp [setColList, getColList, h, Ne.symm h]
      · rcases eq_or_ne k2 k' with h | h
        · subst h
          rcases eq_or_ne k2 k with h2 | h2
          · exact absurd h2 hp
          · simp [setColList, getColList, hp, Ne.symm h2]
        · simp [setColList, getColList, hp, h, ih]

theorem getCol_setCol (df : DataFrame) (k : String) (v : List V) (k' : String) :
    (df.setCol k v).getCol k' = if k' = k then v else df.getCol k' := by
  simp [DataFrame.setCol, DataFrame.getCol, getColList_setColList]

theorem index_setCol (df : DataFrame) (k : String) (v : List V) :
    (df.setCol k v).index = df.index := rfl

theorem index_bfill (df : DataFrame) : df.bfill.index = df.index := rfl

theorem getColList_bfill (l : List (String × List V)) (k : String) :
    getColList (l.map (fun p => (p.1, bfillCol p.2))) k = bfillCol (getColList l k) := by
  induction l with
  | nil => rfl
  | cons p rest ih =>
      obtain ⟨k2, v2⟩ := p
      rcases eq_or_ne k2 k with h | h
      · simp [getColList, h]
      · simp [getColList, h, ih]

theorem getCol_bfill (df : DataFrame) (k : String) :
    df.bfill.getCol k = bfillCol (df.getCol k) := by
  simp [DataFrame.bfill, DataFrame.getCol, getColList_bfill]

/-- Folding any list of column assignments never touches the index. -/
theorem index_foldl_setCol (l : List (String × (DataFrame → List V))) :
    ∀ t : DataFrame,
      (l.foldl (fun acc p => acc.setCol p.1 (p.2 acc)) t).index = t.index := by
  induction l with
  | nil => intro t; rfl
  | cons p rest ih => intro t; rw [List.foldl_cons, ih]; rfl

theorem index_applyIndicatorAssignments (t : DataFrame) :
    (applyIndicatorAssignments t).index = t.index :=
  index_foldl_setCol indicatorAssignments t

theorem index_calculate_technical_indicators (df : DataFrame) :
    (calculate_technical_indicators df).index = df.index := by
  simp [calculate_technical_indicators, DataFrame.copy, index_bfill,
    index_applyIndicatorAssignments]

theorem index_indicatorStage (df : DataFrame) :
    (indicatorStage df).index = df.index := by
  unfold indicatorStage
  split
  · rfl
  · exact index_calculate_technical_indicators df

/-- The assignment fold inside `calcIndicatorsCall` writes only `df_temp`:
the caller's variable `df` is untouched, and the local `df_temp` evolves
exactly as the pure assignment fold. -/
theorem foldAssigns_frame (l : List (String × (DataFrame → List V))) :
    ∀ s : PyVar → DataFrame,
      (l.foldl (fun s p => Function.update s PyVar.df_temp
          ((s PyVar.df_temp).setCol p.1 (p.2 (s PyVar.df_temp)))) s) PyVar.df
        = s PyVar.df
    ∧ (l.foldl (fun s p => Function.update s PyVar.df_temp
          ((s PyVar.df_temp).setCol p.1 (p.2 (s PyVar.df_temp)))) s) PyVar.df_temp
        = l.foldl (fun acc p => acc.setCol p.1 (p.2 acc)) (s PyVar.df_temp) := by
  induction l with
  | nil => intro s; exact ⟨rfl, rfl⟩
  | cons p rest ih =>
      intro s
      rw [List.foldl_cons, List.foldl_cons]
      obtain ⟨h1, h2⟩ := ih (Function.update s PyVar.df_temp
        ((s PyVar.df_temp).setCol p.1 (p.2 (s PyVar.df_temp))))
      refine ⟨?_, ?_⟩
      · rw [h1, Function.update_noteq (by decide)]
      · rw [h2, Function.update_same]

/-- **C10** (`src/prediction.py` lines 19-56, implicit).  In the
store-passing model of a call to `calculate_technical_indicators`, the
caller's frame (the variable `df`) is returned unchanged — its columns, row
order and index are all identical before and after the call — because line
20 copies it into `df_temp` and every write of the body (lines 23-51, 54)
targets only `df_temp`; the returned frame is exactly the pure function of
the input. -/
theorem calcIndicatorsCall_leaves_argument_unchanged (st : PyVar → DataFrame) :
    (calcIndicatorsCall st).1 PyVar.df = st PyVar.df
  ∧ (calcIndicatorsCall st).2
      = calculate_technical_indicators (st PyVar.df) := by
  unfold calcIndicatorsCall
  obtain ⟨h1, h2⟩ := foldAssigns_frame indicatorAssignments
    (Function.update st PyVar.df_temp ((st PyVar.df).copy))
  constructor
  · simp only [Function.update_noteq (show PyVar.df ≠ PyVar.df_temp by decide)]
    rw [h1, Function.update_noteq (by decide)]
  · simp only [Function.update_same]
    rw [h2, Function.update_same]
    rfl

/-- The empty input series, with its five raw OHLCV columns. -/
def emptyOHLCV : DataFrame :=
  ⟨[], [("Open", []), ("High", []), ("Low", []),
        ("Close", []), ("Volume", [])]⟩

/-- **C1, counterexample** (`src/prediction.py` lines 9-56).  On the empty
input series `calculate_technical_indicators` does NOT fail: it returns — a
silently empty success — the empty frame with all indicator columns
attached and empty.  The source defines no `InsufficientDataError` and its
body has no failure path at all, so the claim that the empty input raises
`InsufficientDataError` is false. -/
theorem calcIndicators_empty_silent_success :
    calculate_technical_indicators emptyOHLCV =
      ⟨[], [("Open", []), ("High", []), ("Low", []), ("Close", []),
            ("Volume", []), ("MA20", []), ("MA50", []), ("RSI", []),
            ("MACD", []), ("Signal_Line", []), ("MA20_std", []),
            ("Upper_Band", []), ("Lower_Band", []), ("ATR", [])]⟩
  ∧ (calculate_technical_indicators emptyOHLCV).index.length = 0 := by
  constructor
  · rfl
  · rfl

/-- **C1, amended** (`src/prediction.py` lines 9-56).
`calculate_technical_indicators` is total and never raises: for every input
(the empty series included) it returns a frame with the same index — hence
the same length and row order — whose `Close` column is the back-filled
input `Close` column, of unchanged length.  On empty input it returns an
empty frame rather than raising `InsufficientDataError` (no such exception
exists in the source). -/
theorem calcIndicators_total_preserves_length (df : DataFrame) :
    (calculate_technical_indicators df).index = df.index
  ∧ (calculate_technical_indicators df).getCol "Close"
      = bfillCol (df.getCol "Close")
  ∧ ((calculate_technical_indicators df).getCol "Close").length
      = (df.getCol "Close").length := by
  have hClose : (calculate_technical_indicators df).getCol "Close"
      = bfillCol (df.getCol "Close") := by
    unfold calculate_technical_indicators
    rw [getCol_bfill]
    congr 1
    simp only [applyIndicatorAssignments, indicatorAssignments, List.foldl_cons,
      List.foldl_nil]
    simp [getCol_setCol, DataFrame.copy]
  exact ⟨index_calculate_technical_indicators df, hClose,
    by rw [hClose, length_bfillCol]⟩

/-- **C5** (`src/prediction.py` lines 185-190).  For every residual list,
every sequence of predicted values and every 1-indexed step `i`, the
confidence-band half-width equals `1.96 * residualStd * sqrt(i/10)`, the
bounds are the prediction plus/minus the half-width, and consequently the
band width `Upper_Bound - Lower_Bound` is non-negative and monotonically
non-decreasing in the step index. -/
theorem confidence_band_formula_nonneg_monotone
    (resid : List ℝ) (predicted : ℕ → ℝ) (i : ℕ) :
    bandHalfWidth resid i = 1.96 * residualStd resid * Real.sqrt ((i : ℝ) / 10)
  ∧ forecastUpperBound predicted resid i = predicted i + bandHalfWidth resid i
  ∧ forecastLowerBound predicted resid i = predicted i - bandHalfWidth resid i
  ∧ 0 ≤ forecastUpperBound predicted resid i - forecastLowerBound predicted resid i
  ∧ forecastUpperBound predicted resid i - forecastLowerBound predicted resid i
      ≤ forecastUpperBound predicted resid (i + 1)
          - forecastLowerBound predicted resid (i + 1) := by
  have hstd : 0 ≤ residualStd resid := Real.sqrt_nonneg _
  have hwidth : ∀ j : ℕ,
      forecastUpperBound predicted resid j - forecastLowerBound predicted resid j
        = 2 * bandHalfWidth resid j := by
    intro j
    unfold forecastUpperBound forecastLowerBound
    ring
  have hhw : ∀ j : ℕ, 0 ≤ bandHalfWidth resid j := by
    intro j
    unfold bandHalfWidth
    have h196 : (0 : ℝ) ≤ 1.96 := by norm_num
    exact mul_nonneg (mul_nonneg h196 hstd) (Real.sqrt_nonneg _)
  refine ⟨rfl, rfl, rfl, ?_, ?_⟩
  · rw [hwidth]
    exact mul_nonneg (by norm_num) (hhw i)
  · rw [hwidth, hwidth]
    have hmono : bandHalfWidth resid i ≤ bandHalfWidth resid (i + 1) := by
      unfold bandHalfWidth
      have h1 : Real.sqrt ((i : ℝ) / 10) ≤ Real.sqrt (((i : ℕ) + 1 : ℝ) / 10) := by
        apply Real.sqrt_le_sqrt
        have : (i : ℝ) ≤ (i : ℝ) + 1 := by linarith
        linarith
      have h2 : 0 ≤ 1.96 * residualStd resid := mul_nonneg (by norm_num) hstd
      calc 1.96 * residualStd resid * Real.sqrt ((i : ℝ) / 10)
          ≤ 1.96 * residualStd resid * Real.sqrt (((i : ℕ) + 1 : ℝ) / 10) :=
            mul_le_mul_of_nonneg_left h1 h2
        _ = 1.96 * residualStd resid * Real.sqrt (((i + 1 : ℕ) : ℝ) / 10) := by
            push_cast
            ring_nf
    linarith

/-! ### Generic list and value lemmas -/

theorem vadd_nan_right (x : V) : vadd x nan = nan := by cases x <;> rfl

theorem vadd_nan_left (x : V) : vadd nan x = nan := by cases x <;> rfl

theorem foldl_vadd_nan (l : List V) : l.foldl vadd nan = nan := by
  induction l with
  | nil => rfl
  | cons x t ih => simp [List.foldl_cons, vadd_nan_left, ih]

theorem sumV_of_mem_nan {l : List V} (h : nan ∈ l) : sumV l = nan := by
  unfold sumV
  generalize num 0 = acc
  induction l generalizing acc with
  | nil => cases h
  | cons x t ih =>
      rcases List.mem_cons.mp h with hx | ht
      · subst hx
        rw [List.foldl_cons, vadd_nan_right, foldl_vadd_nan]
      · exact ih ht _

theorem meanV_of_mem_nan {l : List V} (h : nan ∈ l) : meanV l = nan := by
  unfold meanV
  rw [sumV_of_mem_nan h]
  rfl

theorem exists_of_mem_zipWith {α β γ : Type} {f : α → β → γ} :
    ∀ {l1 : List α} {l2 : List β} {v : γ}, v ∈ List.zipWith f l1 l2 →
      ∃ a ∈ l1, ∃ b ∈ l2, v = f a b := by
  intro l1
  induction l1 with
  | nil => intro l2 v h; cases h
  | cons a t ih =>
      intro l2 v h
      cases l2 with
      | nil => cases h
      | cons b t2 =>
          rcases List.mem_cons.mp h with hv | hv
          · exact ⟨a, List.mem_cons_self _ _, b, List.mem_cons_self _ _, hv⟩
          · obtain ⟨x, hx, y, hy, hxy⟩ := ih hv
            exact ⟨x, List.mem_cons_of_mem _ hx, y, List.mem_cons_of_mem _ hy, hxy⟩

theorem mem_windowAt {w : ℕ} {s : List V} {i : ℕ} {v : V}
    (h : v ∈ windowAt w s i) : v ∈ s :=
  List.mem_of_mem_take (List.mem_of_mem_drop h)

theorem length_windowAt_pos {w : ℕ} {s : List V} {i : ℕ}
    (hi : i < s.length) (hw : 1 ≤ w) : 0 < (windowAt w s i).length := by
  simp only [windowAt, List.length_drop, List.length_take]
  omega

theorem mem_rollingApply {w : ℕ} {f : List V → V} {s : List V} {v : V}
    (h : v ∈ rollingApply w f s) :
    v = nan ∨ ∃ i, i < s.length ∧ w ≤ i + 1 ∧ v = f (windowAt w s i) := by
  unfold rollingApply at h
  obtain ⟨i, hi, hv⟩ := List.mem_map.mp h
  have hilt : i < s.length := List.mem_range.mp hi
  by_cases hcase : i + 1 < w
  · left; rw [← hv, if_pos hcase]
  · right; exact ⟨i, hilt, by omega, by rw [← hv, if_neg hcase]⟩

theorem length_shiftCol (k : ℕ) (s : List V) : (shiftCol k s).length = s.length := by
  simp [shiftCol]
  omega

theorem length_diffV (s : List V) : (diffV s).length = s.length := by
  simp [diffV, length_shiftCol]

theorem length_rollingApply (w : ℕ) (f : List V → V) (s : List V) :
    (rollingApply w f s).length = s.length := by
  simp [rollingApply]

theorem length_ewmGo (a : ℚ) : ∀ (xs : List V) (st : Option V × ℚ),
    (ewmGo a st xs).length = xs.length := by
  intro xs
  induction xs with
  | nil =>
      intro st
      obtain ⟨w, ow⟩ := st
      cases w <;> rfl
  | cons x t ih =>
      intro st
      obtain ⟨w, ow⟩ := st
      cases w with
      | none =>
          by_cases hx : x.isNan = true <;>
            simp [ewmGo, hx, ih]
      | some v =>
          by_cases hx : x.isNan = true <;>
            simp [ewmGo, hx, ih]

theorem length_ewmSpan (s : ℚ) (xs : List V) : (ewmSpan s xs).length = xs.length :=
  length_ewmGo _ xs _

/-! ### The chronological split (C7) -/


/-- **C7** (`src/prediction.py` lines 122-123).  Whenever
`train_test_split(X, y, test_size=0.2, shuffle=False)` succeeds inside
`predict_stock_trend`, the retained rows are split chronologically with no
shuffling: the training set is exactly the first `floor(0.8·n)` rows of `X`
in original order, the test set exactly the remaining last `ceil(0.2·n)`
rows (`y` likewise), the two concatenate back to the original sequence —
so no row of the test period occurs in the training set. -/
theorem train_test_split_chronological (X : List Row) (y : List V)
    (Xtr Xte : List Row) (ytr yte : List V)
    (h : train_test_split X y = .ok (Xtr, Xte, ytr, yte)) :
    Xtr = X.take (4 * X.length / 5)
  ∧ Xte = X.drop (4 * X.length / 5)
  ∧ ytr = y.take (4 * X.length / 5)
  ∧ yte = y.drop (4 * X.length / 5)
  ∧ Xtr ++ Xte = X
  ∧ Xtr.length = 4 * X.length / 5
  ∧ Xte.length = X.length - 4 * X.length / 5 := by
  simp only [train_test_split] at h
  by_cases h1 : X.length ≠ y.length
  · rw [if_pos h1] at h; exact absurd h (by simp)
  · rw [if_neg h1] at h
    by_cases h2 : (X.length + 4) / 5 = 0
    · rw [if_pos h2] at h; exact absurd h (by simp)
    · rw [if_neg h2] at h
      by_cases h3 : X.length - (X.length + 4) / 5 = 0
      · rw [if_pos h3] at h; exact absurd h (by simp)
      · rw [if_neg h3] at h
        obtain ⟨e1, e2, e3, e4⟩ :
            Xtr = X.take (X.length - (X.length + 4) / 5)
          ∧ Xte = X.drop (X.length - (X.length + 4) / 5)
          ∧ ytr = y.take (X.length - (X.length + 4) / 5)
          ∧ yte = y.drop (X.length - (X.length + 4) / 5) := by
          have h5 := Except.ok.inj h
          exact ⟨congrArg (fun t => t.1) h5.symm,
                 congrArg (fun t => t.2.1) h5.symm,
                 congrArg (fun t => t.2.2.1) h5.symm,
                 congrArg (fun t => t.2.2.2) h5.symm⟩
        have hk : X.length - (X.length + 4) / 5 = 4 * X.length / 5 := by omega
        have hkle : 4 * X.length / 5 ≤ X.length := by omega
        rw [hk] at e1 e2 e3 e4
        refine ⟨e1, e2, e3, e4, ?_, ?_, ?_⟩
        · rw [e1, e2]; exact List.take_append_drop _ X
        · rw [e1, List.length_take]; omega
        · rw [e2, List.length_drop]

/-! ### The frozen features of the forecast loop (C8) -/

theorem lagName_1 : lagName 1 = "lag_1" := rfl
theorem lagName_2 : lagName 2 = "lag_2" := rfl
theorem lagName_3 : lagName 3 = "lag_3" := rfl
theorem lagName_5 : lagName 5 = "lag_5" := rfl
theorem lagName_10 : lagName 10 = "lag_10" := rfl
theorem returnName_1 : returnName 1 = "return_1" := rfl
theorem returnName_2 : returnName 2 = "return_2" := rfl
theorem returnName_3 : returnName 3 = "return_3" := rfl
theorem returnName_5 : returnName 5 = "return_5" := rfl
theorem returnName_10 : returnName 10 = "return_10" := rfl

theorem getValList_setVal (l : List (String × V)) (k : String) (v : V)
    (k' : String) :
    getValList (Row.setVal l k v) k' = if k' = k then v else getValList l k' := by
  induction l with
  | nil =>
      rcases eq_or_ne k' k with h | h
      · subst h; simp [Row.setVal, getValList]
      · simp [Row.setVal, getValList, h, Ne.symm h]
  | cons p rest ih =>
      obtain ⟨k2, v2⟩ := p
      rcases eq_or_ne k2 k with hp | hp
      · subst hp
        rcases eq_or_ne k' k2 with h | h
        · subst h; simp [Row.setVal, getValList]
        · simp [Row.setVal, getValList, h, Ne.symm h]
      · rcases eq_or_ne k2 k' with h | h
        · subst h
          rcases eq_or_ne k2 k with h2 | h2
          · exact absurd h2 hp
          · simp [Row.setVal, getValList, hp, Ne.symm h2]
        · simp [Row.setVal, getValList, hp, h, ih]

theorem getVal_setVal (r : Row) (k : String) (v : V) (k' : String) :
    (r.setVal k v).getVal k' = if k' = k then v else r.getVal k' := by
  simp [Row.getVal, getValList_setVal]

/-- One loop iteration writes only `Close`, the `lag_*` and the `return_*`
features: every frozen feature keeps its value. -/
theorem getVal_stepRow_frozen (model : Row → V) (r : Row) (k : String)
    (hk : k ∈ frozenFeatureCols) :
    ((stepRow model r).2).getVal k = r.getVal k := by
  fin_cases hk <;>
    simp [stepRow, consistent_lags, lagName_1, lagName_2, lagName_3,
      lagName_5, lagName_10, returnName_1, returnName_2, returnName_3,
      returnName_5, returnName_10, getVal_setVal, apply_ite
        (fun row => Row.getVal row "Open"),
      apply_ite (fun row => Row.getVal row "High"),
      apply_ite (fun row => Row.getVal row "Low"),
      apply_ite (fun row => Row.getVal row "Volume"),
      apply_ite (fun row => Row.getVal row "MA20"),
      apply_ite (fun row => Row.getVal row "MA50"),
      apply_ite (fun row => Row.getVal row "RSI"),
      apply_ite (fun row => Row.getVal row "MACD"),
      apply_ite (fun row => Row.getVal row "Signal_Line"),
      apply_ite (fun row => Row.getVal row "Upper_Band"),
      apply_ite (fun row => Row.getVal row "Lower_Band"),
      apply_ite (fun row => Row.getVal row "ATR")]

/-- **C8** (`src/prediction.py` lines 159-180).  Throughout every iteration
of the autoregressive forecast loop, only the `Close`, `lag_{1,2,3,5,10}`
and `return_{1,2,3,5,10}` entries of the working feature row are written;
the `Open`, `High`, `Low`, `Volume` and all indicator features (`MA20`,
`MA50`, `RSI`, `MACD`, `Signal_Line`, `Upper_Band`, `Lower_Band`, `ATR`)
keep, after any number of steps, exactly their values from the starting
(last historical) feature row — for every model and every starting row. -/
theorem forecastLoop_freezes_non_close_features (model : Row → V) :
    ∀ (n : ℕ) (r : Row) (k : String), k ∈ frozenFeatureCols →
      ((forecastLoop model n r).2).getVal k = r.getVal k := by
  intro n
  induction n with
  | zero => intro r k hk; rfl
  | succ m ih =>
      intro r k hk
      show ((forecastLoop model (m + 1) r).2).getVal k = r.getVal k
      have : (forecastLoop model (m + 1) r).2
          = (forecastLoop model m (stepRow model r).2).2 := by
        simp [forecastLoop]
      rw [this, ih (stepRow model r).2 k hk, getVal_stepRow_frozen model r k hk]

/-! ### Forecast length and dates (C6) -/

theorem length_forecastLoop (model : Row → V) :
    ∀ (n : ℕ) (r : Row), (forecastLoop model n r).1.length = n := by
  intro n
  induction n with
  | zero => intro r; rfl
  | succ m ih => intro r; simp [forecastLoop, ih]

/-- **C6** (`src/prediction.py` lines 145-150 and 182-190).  Whenever
`predict_stock_trend` returns, for any model, any input frame and any
horizon `prediction_days ≥ 1`, the forecast frame has exactly
`prediction_days` points — its index and its `Predicted`, `Upper_Bound`
and `Lower_Bound` columns all have that length — and its dates are the
consecutive calendar days (weekends and holidays included) starting exactly
one day after the last historical date of the input. -/
theorem forecast_horizon_and_consecutive_dates
    (fitModel : List Row → List V → Row → V) (df : DataFrame) (days : ℕ)
    (res : DataFrame × V × V) (hd : 1 ≤ days)
    (h : predict_stock_trend fitModel df days = .ok res) :
    res.1.index
      = (List.range days).map (fun (i : ℕ) => df.index.getLastD 0 + 1 + (i : ℤ))
  ∧ res.1.index.length = days
  ∧ (res.1.getCol "Predicted").length = days
  ∧ (res.1.getCol "Upper_Bound").length = days
  ∧ (res.1.getCol "Lower_Bound").length = days := by
  simp only [predict_stock_trend] at h
  split at h
  · exact absurd h (by simp)
  · rename_i t X_train X_test y_train y_test
    have hres := Except.ok.inj h
    subst hres
    rw [index_indicatorStage]
    refine ⟨rfl, by simp, ?_, ?_, ?_⟩
    · simp [DataFrame.getCol, getColList, length_forecastLoop]
    · simp [DataFrame.getCol, getColList, List.length_zipWith,
        length_forecastLoop]
    · simp [DataFrame.getCol, getColList, List.length_zipWith,
        length_forecastLoop]

/-! ### No minimum-row check in the forecast stage (C3) -/

theorem hasColList_setColList (l : List (String × List V)) (k : String)
    (v : List V) (k' : String) :
    hasColList (setColList l k v) k' = if k' = k then true else hasColList l k' := by
  induction l with
  | nil =>
      rcases eq_or_ne k' k with h | h
      · subst h; simp [setColList, hasColList]
      · simp [setColList, hasColList, h, Ne.symm h]
  | cons p rest ih =>
      obtain ⟨k2, v2⟩ := p
      rcases eq_or_ne k2 k with hp | hp
      · subst hp
        rcases eq_or_ne k' k2 with h | h
        · subst h; simp [setColList, hasColList]
        · simp [setColList, hasColList, h, Ne.symm h]
      · rcases eq_or_ne k2 k' with h | h
        · subst h
          rcases eq_or_ne k2 k with h2 | h2
          · exact absurd h2 hp
          · simp [setColList, hasColList, hp, Ne.symm h2]
        · simp [setColList, hasColList, hp, h, ih]

theorem hasCol_setCol (df : DataFrame) (k : String) (v : List V) (k' : String) :
    (df.setCol k v).hasCol k' = if k' = k then true else df.hasCol k' := by
  simp [DataFrame.setCol, DataFrame.hasCol, hasColList_setColList]

/-- A fold of named column assignments whose names all avoid `k` changes
neither `df[k]` nor the presence of `k`. -/
theorem foldl_setCol_preserves {α : Type} (g : α → String)
    (h : DataFrame → α → List V) (l : List α) (k : String)
    (hk : ∀ a ∈ l, g a ≠ k) :
    ∀ t : DataFrame,
      ((l.foldl (fun f a => f.setCol (g a) (h f a)) t).getCol k = t.getCol k)
    ∧ ((l.foldl (fun f a => f.setCol (g a) (h f a)) t).hasCol k = t.hasCol k) := by
  induction l with
  | nil => intro t; exact ⟨rfl, rfl⟩
  | cons a rest ih =>
      intro t
      rw [List.foldl_cons]
      have hrest : ∀ b ∈ rest, g b ≠ k := fun b hb => hk b (List.mem_cons_of_mem _ hb)
      obtain ⟨h1, h2⟩ := ih hrest (t.setCol (g a) (h t a))
      have hne : ¬(k = g a) := fun hkk => hk a (List.mem_cons_self _ _) hkk.symm
      refine ⟨?_, ?_⟩
      · rw [h1, getCol_setCol, if_neg hne]
      · rw [h2, hasCol_setCol, if_neg hne]

theorem getColList_absent (l : List (String × List V)) (k : String)
    (h : hasColList l k = false) : getColList l k = [] := by
  induction l with
  | nil => rfl
  | cons p rest ih =>
      obtain ⟨k2, v2⟩ := p
      by_cases hk : k2 = k
      · simp [hasColList, hk] at h
      · simp [hasColList, hk] at h
        simp [getColList, hk, ih h]

theorem mem_of_hasColList (l : List (String × List V)) (k : String)
    (h : hasColList l k = true) : (k, getColList l k) ∈ l := by
  induction l with
  | nil => simp [hasColList] at h
  | cons p rest ih =>
      obtain ⟨k2, v2⟩ := p
      by_cases hk : k2 = k
      · subst hk
        simp [getColList]
      · simp [hasColList, hk] at h
        simp [getColList, hk]
        exact Or.inr (ih h)

theorem hasColList_map (l : List (String × List V)) (g : List V → List V)
    (k : String) :
    hasColList (l.map (fun p => (p.1, g p.2))) k = hasColList l k := by
  induction l with
  | nil => rfl
  | cons p rest ih =>
      obtain ⟨k2, v2⟩ := p
      by_cases hk : k2 = k <;> simp [hasColList, hk, ih]

theorem getColList_map_of_mem (l : List (String × List V)) (g : List V → List V)
    (k : String) (h : hasColList l k = true) :
    getColList (l.map (fun p => (p.1, g p.2))) k = g (getColList l k) := by
  induction l with
  | nil => simp [hasColList] at h
  | cons p rest ih =>
      obtain ⟨k2, v2⟩ := p
      by_cases hk : k2 = k
      · simp [getColList, hk]
      · simp [hasColList, hk] at h
        simp [getColList, hk, ih h]


theorem length_index_dropna (df : DataFrame) :
    df.dropna.index.length
      = ((List.range df.index.length).filter (fun i => !df.rowHasNan i)).length := by
  simp [DataFrame.dropna]

theorem getCol_dropna_of_mem (df : DataFrame) (k : String)
    (h : hasColList df.cols k = true) :
    df.dropna.getCol k
      = dropnaCol ((List.range df.index.length).filter (fun i => !df.rowHasNan i))
          (df.getCol k) := by
  simp only [DataFrame.dropna, DataFrame.getCol]
  exact getColList_map_of_mem df.cols
    (dropnaCol ((List.range df.index.length).filter (fun i => !df.rowHasNan i))) k h

theorem getCol_dropna_absent (df : DataFrame) (k : String)
    (h : hasColList df.cols k = false) :
    df.dropna.getCol k = [] := by
  simp only [DataFrame.dropna, DataFrame.getCol]
  apply getColList_absent
  rw [hasColList_map df.cols
    (dropnaCol ((List.range df.index.length).filter (fun i => !df.rowHasNan i))) k]
  exact h

theorem featuresFrame_hasCol_Close (df : DataFrame) :
    (featuresFrame df).hasCol "Close" = df.hasCol "Close" := by
  unfold featuresFrame
  have hpre : ∀ a ∈ consistent_lags, lagName a ≠ "Close" := by decide
  have hpre2 : ∀ a ∈ consistent_lags, returnName a ≠ "Close" := by decide
  rw [(foldl_setCol_preserves returnName
    (fun f l => List.zipWith (fun c lg => vsub (vdiv c lg) (num 1))
      (f.getCol "Close") (f.getCol (lagName l))) consistent_lags "Close" hpre2 _).2]
  rw [(foldl_setCol_preserves lagName
    (fun f l => shiftCol l (f.getCol "Close")) consistent_lags "Close" hpre df.copy).2]
  rfl

theorem featuresFrame_getCol_Close (df : DataFrame) :
    (featuresFrame df).getCol "Close" = df.getCol "Close" := by
  unfold featuresFrame
  have hpre : ∀ a ∈ consistent_lags, lagName a ≠ "Close" := by decide
  have hpre2 : ∀ a ∈ consistent_lags, returnName a ≠ "Close" := by decide
  rw [(foldl_setCol_preserves returnName
    (fun f l => List.zipWith (fun c lg => vsub (vdiv c lg) (num 1))
      (f.getCol "Close") (f.getCol (lagName l))) consistent_lags "Close" hpre2 _).1]
  rw [(foldl_setCol_preserves lagName
    (fun f l => shiftCol l (f.getCol "Close")) consistent_lags "Close" hpre df.copy).1]
  rfl

/-- When the input has no `Close` column at all, `lag_1` is set to the
empty column (the shift of an empty series). -/
theorem featuresFrame_lag1_of_no_Close (df : DataFrame)
    (h : df.hasCol "Close" = false) :
    (featuresFrame df).hasCol "lag_1" = true
  ∧ (featuresFrame df).getCol "lag_1" = [] := by
  unfold featuresFrame
  have hpre3 : ∀ a ∈ [2, 3, 5, 10], lagName a ≠ "lag_1" := by decide
  have hpre4 : ∀ a ∈ consistent_lags, returnName a ≠ "lag_1" := by decide
  have hCloseEmpty : df.copy.getCol "Close" = [] := by
    simp only [DataFrame.copy, DataFrame.getCol]
    exact getColList_absent _ _ (by simpa [DataFrame.hasCol] using h)
  have hstep : (consistent_lags.foldl
      (fun f l => f.setCol (lagName l) (shiftCol l (f.getCol "Close"))) df.copy)
      = ([2, 3, 5, 10].foldl
          (fun f l => f.setCol (lagName l) (shiftCol l (f.getCol "Close")))
          (df.copy.setCol (lagName 1) (shiftCol 1 (df.copy.getCol "Close")))) := rfl
  have e3 := foldl_setCol_preserves lagName
    (fun f l => shiftCol l (f.getCol "Close")) [2, 3, 5, 10] "lag_1" hpre3
    (df.copy.setCol (lagName 1) (shiftCol 1 (df.copy.getCol "Close")))
  have e4 := foldl_setCol_preserves returnName
    (fun f l => List.zipWith (fun c lg => vsub (vdiv c lg) (num 1))
      (f.getCol "Close") (f.getCol (lagName l))) consistent_lags "lag_1" hpre4
    (consistent_lags.foldl
      (fun f l => f.setCol (lagName l) (shiftCol l (f.getCol "Close"))) df.copy)
  constructor
  · rw [e4.2, hstep, e3.2, lagName_1, hasCol_setCol, if_pos rfl]
  · rw [e4.1, hstep, e3.1, lagName_1, getCol_setCol, if_pos rfl, hCloseEmpty]
    rfl

/-- In `create_features` the matrix `X` and the target `y` always have the
same number of rows: both are read off the same `dropna`-filtered frame
(when the input lacks a `Close` column entirely, the empty `lag_1` column
makes every row contain a `NaN`, so both are empty). -/
theorem create_features_length_eq (df : DataFrame) :
    (create_features df).1.length = (create_features df).2.length := by
  unfold create_features
  simp only
  by_cases hc : (featuresFrame df).hasCol "Close" = true
  · rw [getCol_dropna_of_mem _ _ (by simpa [DataFrame.hasCol] using hc)]
    simp [length_index_dropna, dropnaCol]
  · have hc' : hasColList (featuresFrame df).cols "Close" = false := by
      simpa [DataFrame.hasCol] using hc
    have hdfno : df.hasCol "Close" = false := by
      rw [← featuresFrame_hasCol_Close]
      simpa [DataFrame.hasCol] using hc'
    obtain ⟨hlag1has, hlag1val⟩ := featuresFrame_lag1_of_no_Close df hdfno
    have hall : ∀ i, (featuresFrame df).rowHasNan i = true := by
      intro i
      apply List.any_eq_true.mpr
      have hmem := mem_of_hasColList (featuresFrame df).cols "lag_1"
        (by simpa [DataFrame.hasCol] using hlag1has)
      rw [show getColList (featuresFrame df).cols "lag_1"
            = (featuresFrame df).getCol "lag_1" from rfl, hlag1val] at hmem
      exact ⟨("lag_1", []), hmem, by simp [V.isNan]⟩
    have hkeep : (List.range (featuresFrame df).index.length).filter
        (fun i => !(featuresFrame df).rowHasNan i) = [] := by
      apply List.filter_eq_nil.mpr
      intro i hi
      simp [hall i]
    rw [getCol_dropna_absent _ _ hc']
    simp [length_index_dropna, hkeep]

/-- **C3, amended** (`src/prediction.py` lines 101-127).
`predict_stock_trend` performs no minimum-row check whatsoever: whenever
lag-feature construction leaves at least 2 (in particular, fewer than the
~15 the specification demands) trainable rows, it proceeds to train on the
degenerate split and returns a forecast successfully instead of raising
`InsufficientDataError` — for every model and every horizon.  (With 0 or 1
trainable rows the failure is a `ValueError` raised inside sklearn's
`train_test_split`, still not an `InsufficientDataError`.) -/
theorem predict_no_minimum_row_check
    (fitModel : List Row → List V → Row → V) (df : DataFrame)
    (days : ℕ) (h2 : 2 ≤ nTrainable df) (h15 : nTrainable df < 15) :
    ∃ res, predict_stock_trend fitModel df days = .ok res := by
  have hlen : (create_features (indicatorStage df)).1.length
      = (create_features (indicatorStage df)).2.length :=
    create_features_length_eq _
  unfold nTrainable at h2 h15
  have hsplit : train_test_split (create_features (indicatorStage df)).1
      (create_features (indicatorStage df)).2
      = .ok ((create_features (indicatorStage df)).1.take
               ((create_features (indicatorStage df)).1.length
                 - ((create_features (indicatorStage df)).1.length + 4) / 5),
             (create_features (indicatorStage df)).1.drop
               ((create_features (indicatorStage df)).1.length
                 - ((create_features (indicatorStage df)).1.length + 4) / 5),
             (create_features (indicatorStage df)).2.take
               ((create_features (indicatorStage df)).1.length
                 - ((create_features (indicatorStage df)).1.length + 4) / 5),
             (create_features (indicatorStage df)).2.drop
               ((create_features (indicatorStage df)).1.length
                 - ((create_features (indicatorStage df)).1.length + 4) / 5)) := by
    simp only [train_test_split]
    rw [if_neg (by omega), if_neg (by omega), if_neg (by omega)]
  cases hE : predict_stock_trend fitModel df days with
  | ok r => exact ⟨r, rfl⟩
  | error e =>
      exfalso
      simp only [predict_stock_trend] at hE
      rw [hsplit] at hE
      simp at hE

/-! ### Direction accuracy (C4) -/

theorem getD_tail {α : Type} (l : List α) (i : ℕ) (d : α) :
    l.tail.getD i d = l.getD (i + 1) d := by
  cases l with
  | nil => rfl
  | cons a t => rfl

theorem zipWith_eq_rangeMap {α β γ : Type} (g : α → β → γ) (d1 : α) (d2 : β) :
    ∀ (l1 : List α) (l2 : List β),
      List.zipWith g l1 l2
        = (List.range (min l1.length l2.length)).map
            (fun i => g (l1.getD i d1) (l2.getD i d2)) := by
  intro l1
  induction l1 with
  | nil => intro l2; simp
  | cons a t1 ih =>
      intro l2
      cases l2 with
      | nil => simp
      | cons b t2 =>
          simp only [List.zipWith_cons_cons, List.length_cons]
          rw [show min (t1.length + 1) (t2.length + 1) = min t1.length t2.length + 1 by omega]
          rw [List.range_succ_eq_map, List.map_cons]
          simp only [List.getD_cons_zero, List.map_map]
          rw [ih t2]
          congr 1

theorem count_true_map_filter {α : Type} (p : α → Bool) :
    ∀ l : List α, (l.map p).count true = (l.filter p).length := by
  intro l
  induction l with
  | nil => rfl
  | cons a t ih =>
      by_cases hp : p a = true
      · simp [List.count_cons, hp, ih]
      · simp only [Bool.not_eq_true] at hp
        simp [List.count_cons, hp, ih]

theorem zipWith_map_same {α β γ ε : Type} (h : β → γ → ε) (f : α → β) (g : α → γ) :
    ∀ l : List α,
      List.zipWith h (l.map f) (l.map g) = l.map (fun a => h (f a) (g a)) := by
  intro l
  induction l with
  | nil => rfl
  | cons a t ih => simp [ih]

/-- **C4, amended** (`src/prediction.py` lines 135-139).  For equal-length
test and prediction vectors with at least two entries, the reported
direction accuracy equals 100 times the fraction of the `testSize − 1`
consecutive pairs whose predicted and actual day-over-day changes have
equal sign; but when the test split has fewer than 2 rows the comparison
array is empty and `np.mean` yields `NaN` — the reported accuracy is `NaN`
(with a numpy warning), not `0` as the claim states. -/
theorem direction_accuracy_formula :
    (∀ y_test y_pred : List V, y_test.length = y_pred.length →
        2 ≤ y_test.length →
        directionAccuracy y_test y_pred
          = num (100 * (specDirectionAgreements y_test y_pred : ℚ)
              / ((y_test.length : ℚ) - 1)))
  ∧ (∀ y_test y_pred : List V, y_test.length < 2 →
        directionAccuracy y_test y_pred = nan) := by
  constructor
  · intro yt yp hlen hm
    unfold directionAccuracy
    have htail : ∀ l : List V, List.zipWith vsub l.tail l
        = (List.range (l.length - 1)).map
            (fun i => vsub (l.getD (i + 1) nan) (l.getD i nan)) := by
      intro l
      rw [zipWith_eq_rangeMap vsub nan nan l.tail l]
      rw [show min l.tail.length l.length = l.length - 1 by
        rw [List.length_tail]; omega]
      exact List.map_congr_left (fun i _ => by rw [getD_tail])
    simp only [htail yt, htail yp, ← hlen, List.map_map]
    rw [zipWith_map_same]
    simp only [Function.comp]
    have hcount := count_true_map_filter
      (fun i => vEqB (signV (vsub (yt.getD (i + 1) nan) (yt.getD i nan)))
                     (signV (vsub (yp.getD (i + 1) nan) (yp.getD i nan))))
      (List.range (yt.length - 1))
    unfold npMeanBool
    rw [if_neg (by simp; omega)]
    simp only [List.length_map, List.length_range, Function.comp]
    rw [show ((List.range (yt.length - 1)).map
        (fun a => vEqB (signV (vsub (yt.getD (a + 1) nan) (yt.getD a nan)))
            (signV (vsub (yp.getD (a + 1) nan) (yp.getD a nan))))).count true
      = specDirectionAgreements yt yp from hcount]
    show num _ = num _
    congr 1
    have : ((yt.length - 1 : ℕ) : ℚ) = (yt.length : ℚ) - 1 := by
      have : 1 ≤ yt.length := by omega
      push_cast [this]
      ring
    rw [this]
    ring
  · intro yt yp h
    match yt, h with
    | [], _ => rfl
    | [a], _ => rfl

/-! ### RSI bounds and saturation (C2) -/

theorem isNan_iff {v : V} : v.isNan = true ↔ v = nan := by
  cases v <;> simp [V.isNan]

theorem getCol_calc_RSI (df : DataFrame) :
    (calculate_technical_indicators df).getCol "RSI"
      = bfillCol (rsiCol (df.getCol "Close")) := by
  unfold calculate_technical_indicators
  rw [getCol_bfill]
  congr 1
  simp only [applyIndicatorAssignments, indicatorAssignments, List.foldl_cons,
    List.foldl_nil]
  simp [getCol_setCol, DataFrame.copy]

/-- Back-filling preserves any property of the defined (non-`NaN`) cells:
every defined cell of the back-filled column is a defined cell of the
original column. -/
theorem bfillCol_preserve (P : V → Prop) :
    ∀ l : List V, (∀ v ∈ l, v.isNan = false → P v) →
      ∀ v ∈ bfillCol l, v.isNan = false → P v := by
  intro l
  induction l with
  | nil => intro _ v hv; cases hv
  | cons x rest ih =>
      intro hyp v hv hnan
      have hyprest : ∀ w ∈ rest, w.isNan = false → P w :=
        fun w hw => hyp w (List.mem_cons_of_mem _ hw)
      rcases List.mem_cons.mp hv with hhead | htail
      · by_cases hx : x.isNan = true
        · rw [hhead] at hnan ⊢
          simp only [hx, if_true] at hnan ⊢
          cases hrest : bfillCol rest with
          | nil =>
              rw [hrest] at hnan
              simp [V.isNan] at hnan
          | cons h t =>
              rw [hrest] at hnan
              simp only [List.headD_cons] at hnan ⊢
              exact ih hyprest h (hrest ▸ List.mem_cons_self h t) hnan
        · simp only [Bool.not_eq_true] at hx
          rw [hhead]
          simp only [hx, if_false]
          exact hyp x (List.mem_cons_self _ _) hx
      · exact ih hyprest v htail hnan

theorem vltB_zero_iff {d : V} :
    vltB (num 0) d = true ↔ d = inf ∨ ∃ q, d = num q ∧ 0 < q := by
  cases d <;> simp [vltB]

theorem mem_whereGtZero {s : List V} {v : V} (h : v ∈ whereGtZero s) :
    v = inf ∨ ∃ q, v = num q ∧ 0 ≤ q := by
  obtain ⟨d, _, hd⟩ := List.mem_map.mp h
  by_cases hlt : vltB (num 0) d = true
  · rw [← hd, if_pos hlt]
    rcases vltB_zero_iff.mp hlt with h1 | ⟨q, h1, h2⟩
    · exact Or.inl h1
    · exact Or.inr ⟨q, h1, le_of_lt h2⟩
  · rw [← hd, if_neg hlt]
    exact Or.inr ⟨0, rfl, le_refl 0⟩

theorem vltB_neg_iff {d : V} :
    vltB d (num 0) = true ↔ d = ninf ∨ ∃ q, d = num q ∧ q < 0 := by
  cases d <;> simp [vltB]

theorem mem_whereLtZero {s : List V} {v : V} (h : v ∈ whereLtZero s) :
    v = ninf ∨ ∃ q, v = num q ∧ q ≤ 0 := by
  obtain ⟨d, _, hd⟩ := List.mem_map.mp h
  by_cases hlt : vltB d (num 0) = true
  · rw [← hd, if_pos hlt]
    rcases vltB_neg_iff.mp hlt with h1 | ⟨q, h1, h2⟩
    · exact Or.inl h1
    · exact Or.inr ⟨q, h1, le_of_lt h2⟩
  · rw [← hd, if_neg hlt]
    exact Or.inr ⟨0, rfl, le_refl 0⟩

theorem foldl_vadd_nonnegInf :
    ∀ (l : List V) (acc : V),
      (∀ v ∈ l, v = inf ∨ ∃ q, v = num q ∧ 0 ≤ q) →
      (acc = inf ∨ ∃ q, acc = num q ∧ 0 ≤ q) →
      (l.foldl vadd acc = inf ∨ ∃ q, l.foldl vadd acc = num q ∧ 0 ≤ q) := by
  intro l
  induction l with
  | nil => intro acc _ hacc; exact hacc
  | cons x t ih =>
      intro acc h hacc
      rw [List.foldl_cons]
      have hx := h x (List.mem_cons_self _ _)
      have ht : ∀ v ∈ t, v = inf ∨ ∃ q, v = num q ∧ 0 ≤ q :=
        fun v hv => h v (List.mem_cons_of_mem _ hv)
      apply ih _ ht
      rcases hacc with ha | ⟨qa, ha, hqa⟩ <;> rcases hx with hb | ⟨qb, hb, hqb⟩ <;>
        subst ha <;> subst hb
      · exact Or.inl rfl
      · exact Or.inl rfl
      · exact Or.inl rfl
      · exact Or.inr ⟨qa + qb, rfl, by linarith⟩

theorem sumV_nonnegInf {l : List V}
    (h : ∀ v ∈ l, v = inf ∨ ∃ q, v = num q ∧ 0 ≤ q) :
    sumV l = inf ∨ ∃ q, sumV l = num q ∧ 0 ≤ q :=
  foldl_vadd_nonnegInf l (num 0) h (Or.inr ⟨0, rfl, le_refl 0⟩)

theorem meanV_class {l : List V}
    (h : ∀ v ∈ l, v = inf ∨ ∃ q, v = num q ∧ 0 ≤ q) :
    meanV l = nan ∨ meanV l = inf ∨ ∃ q, meanV l = num q ∧ 0 ≤ q := by
  unfold meanV
  rcases sumV_nonnegInf h with hs | ⟨q, hs, hq⟩ <;> rw [hs]
  · right; left
    simp [vdiv, show ¬((l.length : ℚ) < 0) from not_lt.mpr (by positivity)]
  · by_cases hl : (l.length : ℚ) = 0
    · rw [hl]
      by_cases hq0 : q > 0
      · right; left; simp [vdiv, hq0]
      · left
        have : q = 0 := le_antisymm (not_lt.mp hq0) hq
        simp [vdiv, this]
    · right; right
      refine ⟨q / l.length, by simp [vdiv, hl], ?_⟩
      positivity

theorem foldl_vadd_nonposNinf :
    ∀ (l : List V) (acc : V),
      (∀ v ∈ l, v = ninf ∨ ∃ q, v = num q ∧ q ≤ 0) →
      (acc = ninf ∨ ∃ q, acc = num q ∧ q ≤ 0) →
      (l.foldl vadd acc = ninf ∨ ∃ q, l.foldl vadd acc = num q ∧ q ≤ 0) := by
  intro l
  induction l with
  | nil => intro acc _ hacc; exact hacc
  | cons x t ih =>
      intro acc h hacc
      rw [List.foldl_cons]
      have hx := h x (List.mem_cons_self _ _)
      have ht : ∀ v ∈ t, v = ninf ∨ ∃ q, v = num q ∧ q ≤ 0 :=
        fun v hv => h v (List.mem_cons_of_mem _ hv)
      apply ih _ ht
      rcases hacc with ha | ⟨qa, ha, hqa⟩ <;> rcases hx with hb | ⟨qb, hb, hqb⟩ <;>
        subst ha <;> subst hb
      · exact Or.inl rfl
      · exact Or.inl rfl
      · exact Or.inl rfl
      · exact Or.inr ⟨qa + qb, rfl, by linarith⟩

theorem sumV_nonposNinf {l : List V}
    (h : ∀ v ∈ l, v = ninf ∨ ∃ q, v = num q ∧ q ≤ 0) :
    sumV l = ninf ∨ ∃ q, sumV l = num q ∧ q ≤ 0 :=
  foldl_vadd_nonposNinf l (num 0) h (Or.inr ⟨0, rfl, le_refl 0⟩)

theorem meanV_classNeg {l : List V}
    (h : ∀ v ∈ l, v = ninf ∨ ∃ q, v = num q ∧ q ≤ 0) :
    meanV l = nan ∨ meanV l = ninf ∨ ∃ q, meanV l = num q ∧ q ≤ 0 := by
  unfold meanV
  rcases sumV_nonposNinf h with hs | ⟨q, hs, hq⟩
  · rw [hs]
    right; left
    simp [vdiv, show ¬((l.length : ℚ) < 0) from not_lt.mpr (by positivity)]
  · rw [hs]
    by_cases hl : (l.length : ℚ) = 0
    · rw [hl]
      by_cases hq0 : q < 0
      · right; left
        simp [vdiv, hq0, show ¬((0:ℚ) < q) from not_lt.mpr (le_of_lt hq0)]
      · left
        have : q = 0 := le_antisymm hq (not_lt.mp hq0)
        simp [vdiv, this]
    · right; right
      refine ⟨q / l.length, by simp [vdiv, hl], ?_⟩
      apply div_nonpos_of_nonpos_of_nonneg hq
      positivity

theorem gainCol_class (close : List V) :
    ∀ v ∈ gainCol close,
      v = nan ∨ v = inf ∨ ∃ q, v = num q ∧ 0 ≤ q := by
  intro v hv
  unfold gainCol rollingMean at hv
  rcases mem_rollingApply hv with hnan | ⟨i, hi, _, hval⟩
  · exact Or.inl hnan
  · rw [hval]
    have hw : ∀ x ∈ windowAt 14 (whereGtZero (diffV close)) i,
        x = inf ∨ ∃ q, x = num q ∧ 0 ≤ q :=
      fun x hx => mem_whereGtZero (mem_windowAt hx)
    exact meanV_class hw

theorem lossCol_class (close : List V) :
    ∀ v ∈ lossCol close,
      v = nan ∨ v = inf ∨ ∃ q, v = num q ∧ 0 ≤ q := by
  intro v hv
  unfold lossCol rollingMean at hv
  obtain ⟨w, hw, hwv⟩ := List.mem_map.mp hv
  rcases mem_rollingApply hw with hnan | ⟨i, hi, _, hval⟩
  · rw [← hwv, hnan]; exact Or.inl rfl
  · have hcls : ∀ x ∈ windowAt 14 (whereLtZero (diffV close)) i,
        x = ninf ∨ ∃ q, x = num q ∧ q ≤ 0 :=
      fun x hx => mem_whereLtZero (mem_windowAt hx)
    rcases meanV_classNeg hcls with h1 | h1 | ⟨q, h1, hq⟩ <;>
      rw [← hwv, hval, h1]
    · exact Or.inl rfl
    · right; left; rfl
    · right; right; exact ⟨-q, rfl, by linarith⟩

theorem rsCol_class (close : List V) :
    ∀ v ∈ rsCol close,
      v = nan ∨ v = inf ∨ ∃ q, v = num q ∧ 0 ≤ q := by
  intro v hv
  unfold rsCol at hv
  obtain ⟨a, ha, b, hb, hab⟩ := exists_of_mem_zipWith hv
  have hga := gainCol_class close a ha
  have hlb := lossCol_class close b hb
  subst hab
  rcases hga with h1 | h1 | ⟨p, h1, hp⟩ <;> rcases hlb with h2 | h2 | ⟨q, h2, hq⟩ <;>
    subst h1 <;> subst h2
  · exact Or.inl rfl
  · exact Or.inl rfl
  · exact Or.inl rfl
  · exact Or.inl rfl
  · exact Or.inl rfl
  · -- inf / num q, q ≥ 0
    right; left
    simp [vdiv, show ¬(q < 0) from not_lt.mpr hq]
  · exact Or.inl rfl
  · -- num p / inf
    right; right
    exact ⟨0, rfl, le_refl 0⟩
  · -- num p / num q
    by_cases hq0 : q = 0
    · subst hq0
      by_cases hp0 : 0 < p
      · right; left; simp [vdiv, hp0]
      · left
        have : p = 0 := le_antisymm (not_lt.mp hp0) hp
        simp [vdiv, this]
    · right; right
      refine ⟨p / q, by simp [vdiv, hq0], ?_⟩
      have hq' : 0 < q := lt_of_le_of_ne hq (Ne.symm hq0)
      positivity

theorem rsiCol_eq_map (close : List V) :
    rsiCol close = (rsCol close).map rsiOfRs := rfl

theorem rsiOfRs_inf : rsiOfRs inf = num 100 := by with_unfolding_all decide

theorem rsiOfRs_nan : rsiOfRs nan = nan := rfl

theorem rsiOfRs_num {q : ℚ} (hq : 0 ≤ q) :
    rsiOfRs (num q) = num (100 - 100 / (1 + q))
  ∧ 0 ≤ 100 - 100 / (1 + q) ∧ 100 - 100 / (1 + q) ≤ 100 := by
  have h1 : (0 : ℚ) < 1 + q := by linarith
  refine ⟨?_, ?_, ?_⟩
  · simp [rsiOfRs, vadd, vdiv, vsub, vneg, show (1 : ℚ) + q ≠ 0 from ne_of_gt h1]
    ring
  · have h2 : 100 / (1 + q) ≤ 100 := by
      rw [div_le_iff h1]
      nlinarith
    linarith
  · have h3 : 0 < 100 / (1 + q) := by positivity
    linarith

theorem mem_rsiCol_bound (close : List V) :
    ∀ v ∈ rsiCol close, v.isNan = false → ∃ q, v = num q ∧ 0 ≤ q ∧ q ≤ 100 := by
  intro v hv hnan
  rw [rsiCol_eq_map] at hv
  obtain ⟨r, hr, hrv⟩ := List.mem_map.mp hv
  rcases rsCol_class close r hr with h1 | h1 | ⟨q, h1, hq⟩ <;> subst h1
  · rw [← hrv, rsiOfRs_nan] at hnan
    simp [V.isNan] at hnan
  · exact ⟨100, by rw [← hrv, rsiOfRs_inf], by norm_num, by norm_num⟩
  · obtain ⟨he, hge, hle⟩ := rsiOfRs_num hq
    exact ⟨100 - 100 / (1 + q), by rw [← hrv, he], hge, hle⟩

theorem getElem?_zipWith_some {α β γ : Type} {f : α → β → γ} :
    ∀ {l1 : List α} {l2 : List β} {i : ℕ} {a : α} {b : β},
      l1[i]? = some a → l2[i]? = some b →
      (List.zipWith f l1 l2)[i]? = some (f a b) := by
  intro l1
  induction l1 with
  | nil => intro l2 i a b h1; simp at h1
  | cons x t1 ih =>
      intro l2 i a b h1 h2
      cases l2 with
      | nil => simp at h2
      | cons y t2 =>
          cases i with
          | zero =>
              simp at h1 h2
              simp [h1, h2]
          | succ j =>
              simp at h1 h2
              simpa using ih h1 h2

/-- **C2, amended** (`src/prediction.py` lines 26-32).
(a) Every defined (non-`NaN`) RSI value in the output of
`calculate_technical_indicators` lies in `[0, 100]`.
(b) When the trailing-14 loss average at some index is zero and the gain
average there is positive (or infinite), the raw RSI at that index is
exactly 100 — the division by zero saturates instead of raising.
(c) But in the `0/0` case — loss average zero AND gain average zero, as on
a constant `Close` series — `rs` is `NaN` and the raw RSI at that index is
`NaN` (undefined), not 100 as the claim states. -/
theorem rsi_bounded_and_saturates :
    (∀ df : DataFrame, ∀ v ∈ (calculate_technical_indicators df).getCol "RSI",
        v.isNan = false → ∃ q, v = num q ∧ 0 ≤ q ∧ q ≤ 100)
  ∧ (∀ (close : List V) (i : ℕ) (g : V),
        (lossCol close)[i]? = some (num 0) → (gainCol close)[i]? = some g →
        vltB (num 0) g = true → (rsiCol close)[i]? = some (num 100))
  ∧ (∀ (close : List V) (i : ℕ),
        (lossCol close)[i]? = some (num 0) → (gainCol close)[i]? = some (num 0) →
        (rsiCol close)[i]? = some nan) := by
  refine ⟨?_, ?_, ?_⟩
  · intro df v hv hnan
    rw [getCol_calc_RSI] at hv
    exact bfillCol_preserve _ _ (mem_rsiCol_bound (df.getCol "Close")) v hv hnan
  · intro close i g hl hg hpos
    have hrs : (rsCol close)[i]? = some (vdiv g (num 0)) :=
      getElem?_zipWith_some hg hl
    rw [rsiCol_eq_map, List.getElem?_map, hrs]
    rcases vltB_zero_iff.mp hpos with h1 | ⟨q, h1, h2⟩ <;> subst h1
    · simp [vdiv, rsiOfRs_inf]
    · simp [vdiv, h2, rsiOfRs_inf]
  · intro close i hl hg
    have hrs : (rsCol close)[i]? = some (vdiv (num 0) (num 0)) :=
      getElem?_zipWith_some hg hl
    rw [rsiCol_eq_map, List.getElem?_map, hrs]
    simp [vdiv, rsiOfRs_nan]

/-! ### All-NaN input safety (C9) -/

theorem getCol_calc_MA20 (df : DataFrame) :
    (calculate_technical_indicators df).getCol "MA20"
      = bfillCol (rollingMean 20 (df.getCol "Close")) := by
  unfold calculate_technical_indicators
  rw [getCol_bfill]
  congr 1
  simp only [applyIndicatorAssignments, indicatorAssignments, List.foldl_cons,
    List.foldl_nil]
  simp [getCol_setCol, DataFrame.copy]

theorem getCol_calc_MA50 (df : DataFrame) :
    (calculate_technical_indicators df).getCol "MA50"
      = bfillCol (rollingMean 50 (df.getCol "Close")) := by
  unfold calculate_technical_indicators
  rw [getCol_bfill]
  congr 1
  simp only [applyIndicatorAssignments, indicatorAssignments, List.foldl_cons,
    List.foldl_nil]
  simp [getCol_setCol, DataFrame.copy]

theorem getCol_calc_MACD (df : DataFrame) :
    (calculate_technical_indicators df).getCol "MACD"
      = bfillCol (macdCol (df.getCol "Close")) := by
  unfold calculate_technical_indicators
  rw [getCol_bfill]
  congr 1
  simp only [applyIndicatorAssignments, indicatorAssignments, List.foldl_cons,
    List.foldl_nil]
  simp [getCol_setCol, DataFrame.copy]

theorem getCol_calc_Signal_Line (df : DataFrame) :
    (calculate_technical_indicators df).getCol "Signal_Line"
      = bfillCol (ewmSpan 9 (macdCol (df.getCol "Close"))) := by
  unfold calculate_technical_indicators
  rw [getCol_bfill]
  congr 1
  simp only [applyIndicatorAssignments, indicatorAssignments, List.foldl_cons,
    List.foldl_nil]
  simp [getCol_setCol, DataFrame.copy]

theorem getCol_calc_MA20_std (df : DataFrame) :
    (calculate_technical_indicators df).getCol "MA20_std"
      = bfillCol (rollingStd 20 (df.getCol "Close")) := by
  unfold calculate_technical_indicators
  rw [getCol_bfill]
  congr 1
  simp only [applyIndicatorAssignments, indicatorAssignments, List.foldl_cons,
    List.foldl_nil]
  simp [getCol_setCol, DataFrame.copy]

theorem getCol_calc_Upper_Band (df : DataFrame) :
    (calculate_technical_indicators df).getCol "Upper_Band"
      = bfillCol (List.zipWith vadd (rollingMean 20 (df.getCol "Close"))
          ((rollingStd 20 (df.getCol "Close")).map (fun s => vmul s (num 2)))) := by
  unfold calculate_technical_indicators
  rw [getCol_bfill]
  congr 1
  simp only [applyIndicatorAssignments, indicatorAssignments, List.foldl_cons,
    List.foldl_nil]
  simp [getCol_setCol, DataFrame.copy]

theorem getCol_calc_Lower_Band (df : DataFrame) :
    (calculate_technical_indicators df).getCol "Lower_Band"
      = bfillCol (List.zipWith vsub (rollingMean 20 (df.getCol "Close"))
          ((rollingStd 20 (df.getCol "Close")).map (fun s => vmul s (num 2)))) := by
  unfold calculate_technical_indicators
  rw [getCol_bfill]
  congr 1
  simp only [applyIndicatorAssignments, indicatorAssignments, List.foldl_cons,
    List.foldl_nil]
  simp [getCol_setCol, DataFrame.copy]

theorem getCol_calc_ATR (df : DataFrame) :
    (calculate_technical_indicators df).getCol "ATR"
      = bfillCol (rollingMean 14 (trueRangeCol (df.getCol "High")
          (df.getCol "Low") (df.getCol "Close"))) := by
  unfold calculate_technical_indicators
  rw [getCol_bfill]
  congr 1
  simp only [applyIndicatorAssignments, indicatorAssignments, List.foldl_cons,
    List.foldl_nil]
  simp [getCol_setCol, DataFrame.copy]

theorem vsub_nan_left (b : V) : vsub nan b = nan := vadd_nan_left _

theorem bfillCol_allNan {l : List V} (h : allNanL l) : allNanL (bfillCol l) := by
  induction l with
  | nil => intro v hv; cases hv
  | cons x rest ih =>
      have hrest : allNanL rest := fun v hv => h v (List.mem_cons_of_mem _ hv)
      intro v hv
      rcases List.mem_cons.mp hv with hhead | htail
      · have hx : x.isNan = true := h x (List.mem_cons_self _ _)
        rw [hhead]
        simp only [hx, if_true]
        cases hbf : bfillCol rest with
        | nil => simp [V.isNan]
        | cons hh tt =>
            simp only [List.headD_cons]
            exact ih hrest hh (hbf ▸ List.mem_cons_self hh tt)
      · exact ih hrest v htail

theorem allNan_zipWith_left {f : V → V → V} (hf : ∀ b, f nan b = nan)
    {l1 l2 : List V} (h1 : allNanL l1) : allNanL (List.zipWith f l1 l2) := by
  intro v hv
  obtain ⟨a, ha, b, _, hab⟩ := exists_of_mem_zipWith hv
  have : a = nan := isNan_iff.mp (h1 a ha)
  rw [hab, this, hf]
  rfl

theorem allNan_zipWith_both {f : V → V → V} (hf : f nan nan = nan)
    {l1 l2 : List V} (h1 : allNanL l1) (h2 : allNanL l2) :
    allNanL (List.zipWith f l1 l2) := by
  intro v hv
  obtain ⟨a, ha, b, hb, hab⟩ := exists_of_mem_zipWith hv
  rw [hab, isNan_iff.mp (h1 a ha), isNan_iff.mp (h2 b hb), hf]
  rfl

theorem allNan_map {f : V → V} (hf : f nan = nan) {l : List V}
    (h : allNanL l) : allNanL (l.map f) := by
  intro v hv
  obtain ⟨a, ha, hav⟩ := List.mem_map.mp hv
  rw [← hav, isNan_iff.mp (h a ha), hf]
  rfl

theorem diffV_allNan {close : List V} (h : allNanL close) :
    allNanL (diffV close) :=
  allNan_zipWith_left vsub_nan_left h

theorem rollingApply_allNan {w : ℕ} (hw : 1 ≤ w) {f : List V → V}
    (hf : ∀ l, nan ∈ l → f l = nan) {s : List V} (hs : allNanL s) :
    allNanL (rollingApply w f s) := by
  intro v hv
  rcases mem_rollingApply hv with hnan | ⟨i, hi, _, hval⟩
  · rw [hnan]; rfl
  · have hpos := length_windowAt_pos (w := w) hi hw
    obtain ⟨x, hx⟩ := List.exists_mem_of_length_pos hpos
    have : x = nan := isNan_iff.mp (hs x (mem_windowAt hx))
    rw [hval, hf _ (this ▸ hx)]
    rfl

theorem sampleVarSqrt_of_mem_nan {l : List V} (h : nan ∈ l) :
    vsqrt (sampleVar l) = nan := by
  simp only [sampleVar]
  have : nan ∈ l.map (fun x => vmul (vsub x (meanV l)) (vsub x (meanV l))) := by
    apply List.mem_map.mpr
    exact ⟨nan, h, by rw [vsub_nan_left]; rfl⟩
  rw [sumV_of_mem_nan this]
  rfl

theorem ewmGo_allNan (a : ℚ) :
    ∀ (xs : List V) (ow : ℚ), allNanL xs → allNanL (ewmGo a (none, ow) xs) := by
  intro xs
  induction xs with
  | nil => intro ow _ v hv; cases hv
  | cons x t ih =>
      intro ow h
      have hx : x.isNan = true := h x (List.mem_cons_self _ _)
      have ht : allNanL t := fun v hv => h v (List.mem_cons_of_mem _ hv)
      intro v hv
      rw [show ewmGo a (none, ow) (x :: t) = nan :: ewmGo a (none, ow) t by
        simp [ewmGo, hx]] at hv
      rcases List.mem_cons.mp hv with hh | hh
      · rw [hh]; rfl
      · exact ih ow ht v hh

theorem ewmSpan_allNan (s : ℚ) {xs : List V} (h : allNanL xs) :
    allNanL (ewmSpan s xs) :=
  ewmGo_allNan _ xs 1 h

theorem macdCol_allNan {close : List V} (h : allNanL close) :
    allNanL (macdCol close) :=
  allNan_zipWith_left vsub_nan_left (ewmSpan_allNan 12 h)

theorem trueRangeCol_allNan {high low close : List V}
    (hh : allNanL high) (hl : allNanL low) :
    allNanL (trueRangeCol high low close) := by
  unfold trueRangeCol
  apply allNan_zipWith_both (by rfl)
  · exact allNan_zipWith_left vsub_nan_left hh
  · apply allNan_zipWith_both (by rfl)
    · exact allNan_map (by rfl) (allNan_zipWith_left vsub_nan_left hh)
    · exact allNan_map (by rfl) (allNan_zipWith_left vsub_nan_left hl)

theorem whereGtZero_allNan {s : List V} (h : allNanL s) :
    ∀ v ∈ whereGtZero s, v = num 0 := by
  intro v hv
  obtain ⟨d, hd, hdv⟩ := List.mem_map.mp hv
  rw [isNan_iff.mp (h d hd)] at hdv
  rw [← hdv]
  rfl

theorem whereLtZero_allNan {s : List V} (h : allNanL s) :
    ∀ v ∈ whereLtZero s, v = num 0 := by
  intro v hv
  obtain ⟨d, hd, hdv⟩ := List.mem_map.mp hv
  rw [isNan_iff.mp (h d hd)] at hdv
  rw [← hdv]
  rfl

theorem sumV_zeros : ∀ l : List V, (∀ v ∈ l, v = num 0) → sumV l = num 0 := by
  intro l
  induction l with
  | nil => intro _; rfl
  | cons x t ih =>
      intro h
      have hx := h x (List.mem_cons_self _ _)
      have ht := fun v hv => h v (List.mem_cons_of_mem _ hv)
      have : sumV (x :: t) = sumV t := by
        unfold sumV
        rw [List.foldl_cons, hx, show vadd (num 0) (num 0) = num 0 by
          simp [vadd]]
      rw [this, ih ht]

theorem meanV_zeros {l : List V} (h : ∀ v ∈ l, v = num 0) :
    meanV l = nan ∨ meanV l = num 0 := by
  unfold meanV
  rw [sumV_zeros l h]
  by_cases hl : (l.length : ℚ) = 0
  · left; simp [vdiv, hl]
  · right; simp [vdiv, hl]

theorem rollingMean_zeros {w : ℕ} {s : List V} (h : ∀ x ∈ s, x = num 0) :
    ∀ v ∈ rollingMean w s, v = nan ∨ v = num 0 := by
  intro v hv
  rcases mem_rollingApply hv with hnan | ⟨i, _, _, hval⟩
  · exact Or.inl hnan
  · rw [hval]
    exact meanV_zeros (fun x hx => h x (mem_windowAt hx))

theorem gainCol_allNanClose {close : List V} (h : allNanL close) :
    ∀ v ∈ gainCol close, v = nan ∨ v = num 0 :=
  fun v hv => rollingMean_zeros (whereGtZero_allNan (diffV_allNan h)) v hv

theorem lossCol_allNanClose {close : List V} (h : allNanL close) :
    ∀ v ∈ lossCol close, v = nan ∨ v = num 0 := by
  intro v hv
  obtain ⟨w, hw, hwv⟩ := List.mem_map.mp hv
  rcases rollingMean_zeros (whereLtZero_allNan (diffV_allNan h)) w hw with h1 | h1 <;>
    rw [← hwv, h1]
  · exact Or.inl rfl
  · right
    show num (-0) = num 0
    norm_num

theorem rsCol_allNanClose {close : List V} (h : allNanL close) :
    allNanL (rsCol close) := by
  intro v hv
  obtain ⟨a, ha, b, hb, hab⟩ := exists_of_mem_zipWith hv
  rcases gainCol_allNanClose h a ha with h1 | h1 <;>
    rcases lossCol_allNanClose h b hb with h2 | h2 <;>
      subst h1 <;> subst h2 <;> rw [hab] <;> simp [vdiv, V.isNan]

theorem rsiCol_allNanClose {close : List V} (h : allNanL close) :
    allNanL (rsiCol close) := by
  rw [rsiCol_eq_map]
  exact allNan_map rsiOfRs_nan (rsCol_allNanClose h)

theorem length_gainCol (close : List V) :
    (gainCol close).length = close.length := by
  simp [gainCol, rollingMean, length_rollingApply, whereGtZero, length_diffV]

theorem length_lossCol (close : List V) :
    (lossCol close).length = close.length := by
  simp [lossCol, rollingMean, length_rollingApply, whereLtZero, length_diffV]

theorem length_rsiCol (close : List V) :
    (rsiCol close).length = close.length := by
  simp [rsiCol_eq_map, rsCol, List.length_zipWith, length_gainCol,
    length_lossCol]

theorem length_macdCol (close : List V) :
    (macdCol close).length = close.length := by
  simp [macdCol, List.length_zipWith, length_ewmSpan]

theorem length_trueRangeCol {high low close : List V} {n : ℕ}
    (hh : high.length = n) (hl : low.length = n) (hc : close.length = n) :
    (trueRangeCol high low close).length = n := by
  simp [trueRangeCol, List.length_zipWith, List.length_map, length_shiftCol,
    hh, hl, hc]

/-- **C9** (`src/prediction.py` lines 9-56; `src/stock_data.py` lines
69-82).  On an input series whose OHLCV columns are entirely undefined
(all-`NaN`, as produced by the fetch-failure fallback of
`get_stock_data`), `calculate_technical_indicators` raises nothing — it is
total — and returns a frame of the same length (same index) in which every
indicator column is defined-nowhere: all nine derived columns are all-`NaN`
and each has the length of the input. -/
theorem calc_allNan_input_safe (df : DataFrame)
    (hO : allNanL (df.getCol "Open"))
    (hH : allNanL (df.getCol "High"))
    (hL : allNanL (df.getCol "Low"))
    (hC : allNanL (df.getCol "Close"))
    (hV : allNanL (df.getCol "Volume"))
    (hlenH : (df.getCol "High").length = df.index.length)
    (hlenL : (df.getCol "Low").length = df.index.length)
    (hlenC : (df.getCol "Close").length = df.index.length) :
    (calculate_technical_indicators df).index = df.index
  ∧ ∀ k ∈ indicator_columns,
      ((calculate_technical_indicators df).getCol k).length = df.index.length
    ∧ allNanL ((calculate_technical_indicators df).getCol k) := by
  refine ⟨index_calculate_technical_indicators df, ?_⟩
  intro k hk
  fin_cases hk
  · rw [getCol_calc_MA20]
    exact ⟨by simp [length_bfillCol, rollingMean, length_rollingApply, hlenC],
      bfillCol_allNan (rollingApply_allNan (by norm_num)
        (fun _ => meanV_of_mem_nan) hC)⟩
  · rw [getCol_calc_MA50]
    exact ⟨by simp [length_bfillCol, rollingMean, length_rollingApply, hlenC],
      bfillCol_allNan (rollingApply_allNan (by norm_num)
        (fun _ => meanV_of_mem_nan) hC)⟩
  · rw [getCol_calc_RSI]
    exact ⟨by simp [length_bfillCol, length_rsiCol, hlenC],
      bfillCol_allNan (rsiCol_allNanClose hC)⟩
  · rw [getCol_calc_MACD]
    exact ⟨by simp [length_bfillCol, length_macdCol, hlenC],
      bfillCol_allNan (macdCol_allNan hC)⟩
  · rw [getCol_calc_Signal_Line]
    exact ⟨by simp [length_bfillCol, length_ewmSpan, length_macdCol, hlenC],
      bfillCol_allNan (ewmSpan_allNan 9 (macdCol_allNan hC))⟩
  · rw [getCol_calc_MA20_std]
    exact ⟨by simp [length_bfillCol, rollingStd, length_rollingApply, hlenC],
      bfillCol_allNan (rollingApply_allNan (by norm_num)
        (fun _ => sampleVarSqrt_of_mem_nan) hC)⟩
  · rw [getCol_calc_Upper_Band]
    refine ⟨?_, ?_⟩
    · simp [length_bfillCol, List.length_zipWith, rollingMean, rollingStd,
        length_rollingApply, hlenC]
    · exact bfillCol_allNan (allNan_zipWith_left vadd_nan_left
        (rollingApply_allNan (by norm_num) (fun _ => meanV_of_mem_nan) hC))
  · rw [getCol_calc_Lower_Band]
    refine ⟨?_, ?_⟩
    · simp [length_bfillCol, List.length_zipWith, rollingMean, rollingStd,
        length_rollingApply, hlenC]
    · exact bfillCol_allNan (allNan_zipWith_left vsub_nan_left
        (rollingApply_allNan (by norm_num) (fun _ => meanV_of_mem_nan) hC))
  · rw [getCol_calc_ATR]
    refine ⟨?_, ?_⟩
    · simp [length_bfillCol, rollingMean, length_rollingApply]
      exact length_trueRangeCol hlenH hlenL hlenC
    · exact bfillCol_allNan (rollingApply_allNan (by norm_num)
        (fun _ => meanV_of_mem_nan) (trueRangeCol_allNan hH hL))

/-! # Counterexamples and witnesses on concrete inputs -/

/-- **C2, counterexample** (`src/prediction.py` lines 26-32).  On 20 rows of
constant `Close = 100` the trailing-14 loss average at the last index is
exactly `0` (and so is the gain average), yet the whole RSI column of
`calculate_technical_indicators` is `NaN` — back-filling finds no defined
value — and `NaN ≠ 100`: the `0/0` case does not resolve to 100. -/
theorem rsi_zero_over_zero_not_100 :
    (lossCol (List.replicate 20 (num 100)))[19]? = some (num 0)
  ∧ (gainCol (List.replicate 20 (num 100)))[19]? = some (num 0)
  ∧ (calculate_technical_indicators dfConst20).getCol "RSI"
      = List.replicate 20 nan
  ∧ (nan : V) ≠ num 100 := by
  refine ⟨?_, ?_, ?_, ?_⟩
  · with_unfolding_all decide
  · with_unfolding_all decide
  · with_unfolding_all decide
  · with_unfolding_all decide

/-- **C2, witness.**  The three parts of `rsi_bounded_and_saturates`
instantiated on concrete series: (a) the defined RSI value 100 of the
increasing-close frame is certified to lie in `[0,100]`; (b) on the
increasing close the loss average at index 13 is 0, the gain average is
positive, and the theorem yields RSI exactly 100 there; (c) on the constant
close both averages at index 19 are 0 and the theorem yields `NaN`. -/
theorem rsi_bounded_and_saturates_witness :
    (num 100 ∈ (calculate_technical_indicators dfRamp15).getCol "RSI"
      ∧ (num 100).isNan = false
      ∧ (∃ q, (num 100 : V) = num q ∧ 0 ≤ q ∧ q ≤ 100))
  ∧ ((lossCol (rampClose 15))[13]? = some (num 0)
      ∧ (gainCol (rampClose 15))[13]? = some (num (13 / 14))
      ∧ vltB (num 0) (num (13 / 14)) = true
      ∧ (rsiCol (rampClose 15))[13]? = some (num 100))
  ∧ ((lossCol (List.replicate 20 (num 100)))[19]? = some (num 0)
      ∧ (gainCol (List.replicate 20 (num 100)))[19]? = some (num 0)
      ∧ (rsiCol (List.replicate 20 (num 100)))[19]? = some nan) := by
  refine ⟨⟨?m1, rfl, ?c1⟩, ⟨?m2, ?m3, ?m4, ?c2⟩, ⟨?m5, ?m6, ?c3⟩⟩
  case m1 => with_unfolding_all decide
  case c1 =>
      exact rsi_bounded_and_saturates.1 dfRamp15 (num 100)
        (by with_unfolding_all decide) rfl
  case m2 => with_unfolding_all decide
  case m3 => with_unfolding_all decide
  case m4 => with_unfolding_all decide
  case c2 =>
      exact rsi_bounded_and_saturates.2.1 (rampClose 15) 13 (num (13 / 14))
        (by with_unfolding_all decide) (by with_unfolding_all decide)
        (by with_unfolding_all decide)
  case m5 => with_unfolding_all decide
  case m6 => with_unfolding_all decide
  case c3 =>
      exact rsi_bounded_and_saturates.2.2 (List.replicate 20 (num 100)) 19
        (by with_unfolding_all decide) (by with_unfolding_all decide)

/-- **C3, counterexample** (`src/prediction.py` lines 101-127).  On a
13-row fully featured frame only 3 trainable rows remain — far below the
~15 the claim demands — yet `predict_stock_trend` returns successfully
(with the degenerate 2/1 split) and raises nothing; in particular the
result is not `InsufficientDataError`. -/
theorem predict_few_rows_silently_proceeds :
    nTrainable (fullFrame 13) = 3
  ∧ (predict_stock_trend fit0 (fullFrame 13) 2).toOption.isSome = true
  ∧ predict_stock_trend fit0 (fullFrame 13) 2
      ≠ Except.error PredError.insufficientDataError := by
  refine ⟨?_, ?_, ?_⟩
  · with_unfolding_all decide
  · with_unfolding_all decide
  · with_unfolding_all decide

/-- **C3, witness.**  `predict_no_minimum_row_check` applied to the 13-row
frame: 2 ≤ 3 < 15 trainable rows, and the run returns `.ok`. -/
theorem predict_no_minimum_row_check_witness :
    2 ≤ nTrainable (fullFrame 13)
  ∧ nTrainable (fullFrame 13) < 15
  ∧ ∃ res, predict_stock_trend fit0 (fullFrame 13) 2 = .ok res :=
  ⟨by with_unfolding_all decide, by with_unfolding_all decide,
   predict_no_minimum_row_check fit0 (fullFrame 13) 2
     (by with_unfolding_all decide) (by with_unfolding_all decide)⟩

/-- **C4, counterexample** (`src/prediction.py` lines 135-139).  On the
12-row frame the retained rows number 2, the test split has a single row,
and the full run of `predict_stock_trend` reports direction accuracy `NaN`
— not `0` as the claim states. -/
theorem predict_single_test_row_accuracy_nan :
    (predict_stock_trend fit0 (fullFrame 12) 2).map (fun r => r.2.1)
      = Except.ok nan
  ∧ (nan : V) ≠ num 0 := by
  refine ⟨?_, ?_⟩
  · with_unfolding_all decide
  · with_unfolding_all decide

/-- **C4, witness.**  `direction_accuracy_formula` applied to concrete
vectors: a 3-element test (one sign agreement out of two) satisfies the
formula, and a single-row test yields `NaN`. -/
theorem direction_accuracy_formula_witness :
    ([num 1, num 2, num 3] : List V).length = ([num 1, num 3, num 2] : List V).length
  ∧ 2 ≤ ([num 1, num 2, num 3] : List V).length
  ∧ directionAccuracy [num 1, num 2, num 3] [num 1, num 3, num 2]
      = num (100 * (specDirectionAgreements [num 1, num 2, num 3] [num 1, num 3, num 2] : ℚ)
          / ((([num 1, num 2, num 3] : List V).length : ℚ) - 1))
  ∧ ([num 5] : List V).length < 2
  ∧ directionAccuracy [num 5] [num 7] = nan :=
  ⟨rfl, by decide,
   direction_accuracy_formula.1 [num 1, num 2, num 3] [num 1, num 3, num 2] rfl (by decide),
   by decide,
   direction_accuracy_formula.2 [num 5] [num 7] (by decide)⟩

/-- **C6, witness.**  A concrete successful run: on the 12-row frame (last
date 11) with horizon 2 the forecast index is exactly `[12, 13]`. -/
theorem forecast_horizon_witness :
    1 ≤ 2
  ∧ (predict_stock_trend fit0 (fullFrame 12) 2).map (fun r => r.1.index)
      = Except.ok [12, 13] := by
  refine ⟨by norm_num, ?_⟩
  cases hE : predict_stock_trend fit0 (fullFrame 12) 2 with
  | error e =>
      exfalso
      have hok : (predict_stock_trend fit0 (fullFrame 12) 2).toOption.isSome = true := by
        with_unfolding_all decide
      rw [hE] at hok
      simp [Except.toOption] at hok
  | ok res =>
      obtain ⟨hidx, -, -, -, -⟩ := forecast_horizon_and_consecutive_dates
        fit0 (fullFrame 12) 2 res (by norm_num) hE
      simp only [Except.map]
      rw [hidx]
      with_unfolding_all decide

/-- **C7, witness.**  The split of 5 rows: train = first 4, test = last 1,
and they concatenate back to the original sequence. -/
theorem train_test_split_chronological_witness :
    train_test_split X5 y5
      = Except.ok (X5.take 4, X5.drop 4, y5.take 4, y5.drop 4)
  ∧ X5.take 4 ++ X5.drop 4 = X5 := by
  have h : train_test_split X5 y5
      = Except.ok (X5.take 4, X5.drop 4, y5.take 4, y5.drop 4) := by
    with_unfolding_all decide
  exact ⟨h, (train_test_split_chronological X5 y5 _ _ _ _ h).2.2.2.2.1⟩

/-- **C8, witness.**  Two loop steps with a constant model leave the
`Open` feature of the concrete full row unchanged. -/
theorem forecastLoop_freezes_witness :
    "Open" ∈ frozenFeatureCols
  ∧ ((forecastLoop (fun _ => num 2) 2 rowFix).2).getVal "Open"
      = rowFix.getVal "Open" :=
  ⟨by decide,
   forecastLoop_freezes_non_close_features (fun _ => num 2) 2 rowFix "Open" (by decide)⟩

/-- **C9, witness.**  On the two-row all-`NaN` frame the theorem yields an
RSI column of length 2 that is entirely `NaN`. -/
theorem calc_allNan_witness :
    allNanL (dfAllNan.getCol "Close")
  ∧ ("RSI" : String) ∈ indicator_columns
  ∧ ((calculate_technical_indicators dfAllNan).getCol "RSI").length
      = dfAllNan.index.length
  ∧ allNanL ((calculate_technical_indicators dfAllNan).getCol "RSI") := by
  have h := calc_allNan_input_safe dfAllNan (by decide) (by decide) (by decide)
    (by decide) (by decide) (by decide) (by decide) (by decide)
  have hr := h.2 "RSI" (by decide)
  exact ⟨by decide, by decide, hr.1, hr.2⟩
